import Mathlib

/-!
Shallow embedding of the Fauxcrophone real-time stereo mixer core
(`src/lib.rs`, `src/ring.rs`, `src/latency.rs`).

Machine floats (`f32`/`f64`) are modelled by exact rationals `ℚ` for the
mixer pipeline (its operations are `+ - * /`, `clamp`, `floor`, `ceil`) and
by real numbers `ℝ` for the latency probe (which uses `sqrt` and `sin`).
`u64`/`usize` counters are modelled by `ℕ`; Rust `saturating_sub` on
unsigned integers coincides with truncated `ℕ` subtraction.  The monotonic
clock is passed in as an explicit `now` parameter.
-/

namespace Fauxcrophone

/-- `MIX_CHANNELS` constant from `lib.rs`. -/
def MIX_CHANNELS : ℕ := 2

/-- Models `dst[start .. start+src.len()].copy_from_slice(src)` on a Rust
slice: overwrite a subrange of `dst` with `src`. -/
def copyInto (dst : List ℚ) (start : ℕ) (src : List ℚ) : List ℚ :=
  dst.take start ++ src ++ dst.drop (start + src.length)

/-- Ring-buffer state: the `RingBufferHeader` fields together with the
interleaved sample data region (`ring.rs`). Atomics collapse to plain
fields in this single-threaded embedding. -/
structure RingState where
  capacity_frames : ℕ
  channels : ℕ
  write_index : ℕ
  read_index : ℕ
  last_timestamp_ns : ℕ
  data : List ℚ
deriving Repr, DecidableEq

/-- `SharedRingBuffer::new_local`. -/
def RingState.new_local (capacity_frames channels : ℕ) : RingState :=
  { capacity_frames := capacity_frames
    channels := channels
    write_index := 0
    read_index := 0
    last_timestamp_ns := 0
    data := List.replicate (capacity_frames * channels) 0 }

/-- `SharedRingBuffer::push` (`ring.rs` lines 201-239).  Returns the new
state and the number of frames written.  `now` models the value the
monotonic clock would return if `timestamp_ns` is absent. -/
def RingState.push (s : RingState) (frames : List ℚ) (timestamp_ns : Option ℕ)
    (now : ℕ) : RingState × ℕ :=
  let frames_count := frames.length / s.channels
  if frames_count = 0 then (s, 0) else
  let capacity := s.capacity_frames
  let used := min (s.write_index - s.read_index) capacity
  let free := capacity - used
  if free = 0 then (s, 0) else
  let frames_to_write := min frames_count free
  let start_frame := s.write_index % capacity
  let first_chunk_frames := min (s.capacity_frames - start_frame) frames_to_write
  let first_samples := first_chunk_frames * s.channels
  let first_dest := start_frame * s.channels
  let data1 := copyInto s.data first_dest (frames.take first_samples)
  let data2 :=
    if first_chunk_frames < frames_to_write then
      let remaining_samples := (frames_to_write - first_chunk_frames) * s.channels
      copyInto data1 0 ((frames.drop first_samples).take remaining_samples)
    else data1
  ({ s with
      data := data2
      write_index := s.write_index + frames_to_write
      last_timestamp_ns := timestamp_ns.getD now },
   frames_to_write)

/-- `SharedRingBuffer::pop` (`ring.rs` lines 242-277).  The Rust function
fills a caller buffer of length `out_len`; here we return the popped
samples (the prefix the Rust code overwrites) together with the count. -/
def RingState.pop (s : RingState) (out_len : ℕ) : RingState × ℕ × List ℚ :=
  let requested_frames := out_len / s.channels
  if requested_frames = 0 then (s, 0, []) else
  let capacity := s.capacity_frames
  let available := min (s.write_index - s.read_index) capacity
  if available = 0 then (s, 0, []) else
  let frames_to_read := min requested_frames available
  let start_frame := s.read_index % capacity
  let first_chunk_frames := min (s.capacity_frames - start_frame) frames_to_read
  let first_samples := first_chunk_frames * s.channels
  let first_src := start_frame * s.channels
  let out1 := (s.data.drop first_src).take first_samples
  let out2 :=
    if first_chunk_frames < frames_to_read then
      out1 ++ s.data.take ((frames_to_read - first_chunk_frames) * s.channels)
    else out1
  ({ s with read_index := s.read_index + frames_to_read }, frames_to_read, out2)

/-- `SharedRingBuffer::discard`. -/
def RingState.discard (s : RingState) (frames : ℕ) : RingState × ℕ :=
  let capacity := s.capacity_frames
  let available := min (s.write_index - s.read_index) capacity
  if available = 0 then (s, 0) else
  let frames1 := min frames available
  ({ s with read_index := s.read_index + frames1 }, frames1)

/-- `SharedRingBuffer::available_read`. -/
def RingState.available_read (s : RingState) : ℕ :=
  min (s.write_index - s.read_index) s.capacity_frames

/-- A stereo frame (`Stereo<f32>` from `dasp_frame`). -/
abbrev Frame := ℚ × ℚ

/-- `Stereo::EQUILIBRIUM` (silence). -/
def equilibrium : Frame := (0, 0)

/-- `DelayLine` state (`lib.rs` lines 182-189). -/
structure DelayLine where
  buffer : List Frame
  capacity : ℕ
  read_idx : ℕ
  write_idx : ℕ
  len : ℕ
  target_delay : ℕ
deriving Repr, DecidableEq

/-- `DelayLine::new`. -/
def DelayLine.new (capacity : ℕ) : DelayLine :=
  let c := max capacity 32
  { buffer := List.replicate c equilibrium
    capacity := c
    read_idx := 0
    write_idx := 0
    len := 0
    target_delay := 0 }

/-- `DelayLine::set_target`. -/
def DelayLine.set_target (d : DelayLine) (frames : ℕ) : DelayLine :=
  { d with target_delay := min frames (d.capacity - 1) }

/-- `DelayLine::pop_internal`. -/
def DelayLine.pop_internal (d : DelayLine) : DelayLine × Option Frame :=
  if d.len = 0 then (d, none)
  else
    let frame := d.buffer.getD d.read_idx equilibrium
    ({ d with read_idx := (d.read_idx + 1) % d.capacity, len := d.len - 1 },
     some frame)

/-- Iterated `pop_internal`, discarding the produced frames (the loop body
of `DelayLine::drop_frames`). -/
def DelayLine.popN (d : DelayLine) : ℕ → DelayLine
  | 0 => d
  | n + 1 => (d.pop_internal.1).popN n

/-- `DelayLine::drop_frames`. -/
def DelayLine.drop_frames (d : DelayLine) (frames : ℕ) : DelayLine × ℕ :=
  let drop := min frames d.len
  (d.popN drop, drop)

/-- `DelayLine::process_frame` (`lib.rs` lines 226-240). -/
def DelayLine.process_frame (d : DelayLine) (frame : Frame) : DelayLine × Frame :=
  let d1 : DelayLine :=
    { d with
        buffer := d.buffer.set d.write_idx frame
        write_idx := (d.write_idx + 1) % d.capacity }
  let d2 : DelayLine :=
    if d1.len < d1.capacity then { d1 with len := d1.len + 1 }
    else { d1 with read_idx := (d1.read_idx + 1) % d1.capacity }
  if d2.len > d2.target_delay then
    let p := d2.pop_internal
    (p.1, p.2.getD equilibrium)
  else (d2, equilibrium)

/-- Feed a list of frames through the delay line one `process_frame` at a
time, collecting the emitted frames. -/
def DelayLine.run (d : DelayLine) : List Frame → DelayLine × List Frame
  | [] => (d, [])
  | x :: xs =>
    let p := d.process_frame x
    let r := p.1.run xs
    (r.1, p.2 :: r.2)

/-- `ClockState` (`lib.rs` lines 134-138). -/
structure ClockState where
  last_device_ts : Option ℕ
  last_source_ts : Option ℕ
  smoothed_ratio : ℚ
deriving Repr, DecidableEq

/-- `ClockState::new`. -/
def ClockState.new : ClockState :=
  { last_device_ts := none, last_source_ts := none, smoothed_ratio := 1 }

/-- The `ALPHA = 0.05` smoothing constant. -/
def alphaIIR : ℚ := 5 / 100

/-- `ClockState::submit_feedback` (`lib.rs` lines 149-174).  Returns the
new state and the optionally produced smoothed ratio. -/
def ClockState.submit_feedback (c : ClockState) (device_ts source_ts : ℕ) :
    ClockState × Option ℚ :=
  match c.last_device_ts, c.last_source_ts with
  | some prev_device, some prev_source =>
    if device_ts > prev_device ∧ source_ts > prev_source then
      let device_delta : ℚ := ((device_ts - prev_device : ℕ) : ℚ)
      let source_delta : ℚ := ((source_ts - prev_source : ℕ) : ℚ)
      if device_delta > 0 ∧ source_delta > 0 then
        let raw_ratio := source_delta / device_delta
        let clamped := min (max raw_ratio (98 / 100)) (102 / 100)
        let smoothed := c.smoothed_ratio + alphaIIR * (clamped - c.smoothed_ratio)
        ({ last_device_ts := some device_ts
           last_source_ts := some source_ts
           smoothed_ratio := smoothed }, some smoothed)
      else
        ({ c with last_device_ts := some device_ts
                  last_source_ts := some source_ts }, none)
    else
      ({ c with last_device_ts := some device_ts
                last_source_ts := some source_ts }, none)
  | _, _ =>
      ({ c with last_device_ts := some device_ts
                last_source_ts := some source_ts }, none)

/-- `ClockState::drift_ppm`. -/
def ClockState.drift_ppm (c : ClockState) : ℚ :=
  (c.smoothed_ratio - 1) * 1000000

/-- `ResamplerState` (ratio stored atomically in the source; phase is
audio-thread local). -/
structure ResamplerState where
  ratio : ℚ
  phase : ℚ
deriving Repr, DecidableEq

/-- `ResamplerState::new`. -/
def ResamplerState.new : ResamplerState := { ratio := 1, phase := 0 }

/-- Mixer `Source` entry (`lib.rs` lines 244-257).  The atomics
(`gain`, `mute`, `latency_frames`) collapse to plain fields. -/
structure Source where
  ring : RingState
  gain : ℚ
  mute : Bool
  latency_frames : ℤ
  current_latency_setting : ℤ
  advance_deficit : ℕ
  delay_line : DelayLine
  resampler : ResamplerState
  clock : ClockState
  scratch : List ℚ
  prev_frame : Frame
deriving Repr, DecidableEq

/-- `Source::new` (`lib.rs` lines 260-276). -/
def Source.new (ring : RingState) (max_block_frames : ℕ) : Source :=
  { ring := ring
    gain := 1
    mute := false
    latency_frames := 0
    current_latency_setting := 0
    advance_deficit := 0
    delay_line := DelayLine.new (max_block_frames * 8)
    resampler := ResamplerState.new
    clock := ClockState.new
    scratch := List.replicate (max_block_frames * MIX_CHANNELS * 4) 0
    prev_frame := equilibrium }

/-- `Source::update_latency_state` (`lib.rs` lines 300-318). -/
def Source.update_latency_state (s : Source) : Source :=
  let desired := s.latency_frames
  if desired = s.current_latency_setting then s
  else if 0 ≤ desired then
    { s with
        delay_line := s.delay_line.set_target desired.toNat
        advance_deficit := 0
        current_latency_setting := desired }
  else
    let deficit := desired.natAbs
    let d1 := s.delay_line.set_target 0
    let p := d1.drop_frames deficit
    { s with
        delay_line := p.1
        advance_deficit := deficit - p.2
        current_latency_setting := desired }

/-- `Source::set_resample_ratio`. -/
def Source.set_resample_ratio (s : Source) (ratio : ℚ) : Source :=
  { s with resampler := { s.resampler with ratio := ratio } }

/-- `Source::apply_clock_feedback` (`lib.rs` lines 324-328). -/
def Source.apply_clock_feedback (s : Source) (device_ts source_ts : ℕ) : Source :=
  let p := s.clock.submit_feedback device_ts source_ts
  let s1 := { s with clock := p.1 }
  match p.2 with
  | some smoothed => s1.set_resample_ratio smoothed
  | none => s1

/-- `read_interleaved` (`lib.rs` lines 443-446). -/
def read_interleaved (buffer : List ℚ) (frame_index : ℕ) : Frame :=
  (buffer.getD (frame_index * MIX_CHANNELS) 0,
   buffer.getD (frame_index * MIX_CHANNELS + 1) 0)

/-- The ratio clamp `ratio.clamp(0.95, 1.05)` applied at the top of
`Source::mix_into`. -/
def clampRatio (ratio : ℚ) : ℚ := min (max ratio (95 / 100)) (105 / 100)

/-- `expected_input = ((frames as f32) * ratio).ceil() as usize + 2`
from `Source::mix_into`. -/
def expected_input (frames : ℕ) (ratio : ℚ) : ℕ :=
  (⌈(frames : ℚ) * ratio⌉).toNat + 2

/-- `scratch_needed = expected_input * frame_samples` from
`Source::mix_into`. -/
def scratch_needed (frames : ℕ) (ratio : ℚ) : ℕ :=
  expected_input frames ratio * MIX_CHANNELS

/-- `output[i] += v` on the interleaved output slice. -/
def addAt (out : List ℚ) (i : ℕ) (v : ℚ) : List ℚ :=
  out.set i (out.getD i 0 + v)

/-- The starved-ring loop of `Source::mix_into` (`total_input_frames < 2`):
drive the delay line with silence for `frames` frames, accumulating into
the output. First argument of the recursion is the remaining frame count,
second the current `frame_index`. -/
def silentFill (gain : ℚ) : ℕ → ℕ → DelayLine → List ℚ → DelayLine × List ℚ
  | 0, _, dl, out => (dl, out)
  | n + 1, frame_index, dl, out =>
    let p := dl.process_frame equilibrium
    let base := frame_index * MIX_CHANNELS
    let out1 := addAt (addAt out base (p.2.1 * gain)) (base + 1) (p.2.2 * gain)
    silentFill gain n (frame_index + 1) p.1 out1

/-- The main `while produced_frames < frames` resampling loop of
`Source::mix_into` (`lib.rs` lines 383-410).  The first `ℕ` argument is
the number of iterations left (`frames - produced_frames`); the loop state
is `(produced_frames, input_cursor, phase, delay_line, output)` and the
returned tuple is `(input_cursor, phase, delay_line, output)`. -/
def mixLoop (scratch : List ℚ) (last_available : ℕ) (ratio gain : ℚ) :
    ℕ → ℕ → ℕ → ℚ → DelayLine → List ℚ → ℕ × ℚ × DelayLine × List ℚ
  | 0, _, input_cursor, phase, dl, out => (input_cursor, phase, dl, out)
  | n + 1, produced_frames, input_cursor, phase, dl, out =>
    let frame : Frame :=
      if last_available ≤ input_cursor then equilibrium
      else
        let next_idx := min (input_cursor + 1) last_available
        let frame_a := read_interleaved scratch input_cursor
        let frame_b := read_interleaved scratch next_idx
        let t := phase
        (frame_a.1 + (frame_b.1 - frame_a.1) * t,
         frame_a.2 + (frame_b.2 - frame_a.2) * t)
    let phase1 := phase + ratio
    let advance := (⌊phase1⌋).toNat
    let phase2 := if 0 < advance then phase1 - (advance : ℚ) else phase1
    let cursor2 :=
      if 0 < advance then min (input_cursor + advance) last_available
      else input_cursor
    let p := dl.process_frame frame
    let base := produced_frames * MIX_CHANNELS
    let out1 := addAt (addAt out base (p.2.1 * gain)) (base + 1) (p.2.2 * gain)
    mixLoop scratch last_available ratio gain n (produced_frames + 1) cursor2 phase2 p.1 out1

/-- The `advance_deficit` step of `Source::mix_into` (`lib.rs` lines
340-343): discard up to the deficit from the ring before resampling. -/
def Source.apply_advance_deficit (s : Source) : Source :=
  if 0 < s.advance_deficit then
    let p := s.ring.discard s.advance_deficit
    { s with ring := p.1, advance_deficit := s.advance_deficit - p.2 }
  else s

/-- The resampling portion of `Source::mix_into` (`lib.rs` lines 345-414):
scratch fill from the ring and the interpolation loop, applied after the
latency-state and advance-deficit steps. -/
def Source.resample_and_mix (s2 : Source) (output : List ℚ) (frames : ℕ) :
    Source × List ℚ :=
  let ratio := clampRatio s2.resampler.ratio
  let ei := expected_input frames ratio
  if s2.scratch.length < scratch_needed frames ratio then (s2, output) else
  let to_read_frames := ei - 1
  let read_samples := to_read_frames * MIX_CHANNELS
  let q := s2.ring.pop read_samples
  let scratch1 := s2.prev_frame.1 :: s2.prev_frame.2 :: q.2.2
      ++ s2.scratch.drop (MIX_CHANNELS + (q.2.2).length)
  let total_input_frames := 1 + q.2.1
  let s3 := { s2 with ring := q.1, scratch := scratch1 }
  let gain := s3.gain
  if total_input_frames < 2 then
    let r := silentFill gain frames 0 s3.delay_line output
    ({ s3 with delay_line := r.1 }, r.2)
  else
    let last_available := total_input_frames - 1
    let r := mixLoop scratch1 last_available ratio gain frames 0 0
        s3.resampler.phase s3.delay_line output
    ({ s3 with
        delay_line := r.2.2.1
        resampler := { s3.resampler with phase := r.2.1 }
        prev_frame := read_interleaved scratch1 last_available },
     r.2.2.2)

/-- `Source::mix_into` (`lib.rs` lines 334-414): mute early-return, then
latency update, advance-deficit discard, and resampling. -/
def Source.mix_into (s : Source) (output : List ℚ) (frames : ℕ) :
    Source × List ℚ :=
  if s.mute then (s, output)
  else (s.update_latency_state.apply_advance_deficit).resample_and_mix output frames

/-- `AudioBuffer` (data pointer modelled as the pointed-to sample list). -/
structure AudioBuffer where
  data : List ℚ
  frames : ℕ
  channels : ℕ
  timestamp_ns : ℕ
deriving Repr, DecidableEq

/-- `MixerError` (`lib.rs` lines 97-107). -/
inductive MixerError where
  | NullMixer : MixerError
  | UnknownSource : ℕ → MixerError
  | UnsupportedChannels : ℕ → MixerError
deriving Repr, DecidableEq

/-- `Mixer` (`lib.rs` lines 449-455); the latency probe is modelled
separately. -/
structure Mixer where
  sample_rate : ℕ
  max_block_frames : ℕ
  sources : List Source
  next_source_id : ℕ
deriving Repr, DecidableEq

/-- The `for source in &mut self.sources { source.mix_into(output, frames) }`
loop of `Mixer::process`: accumulate each source in registration order. -/
def mixSources : List Source → List ℚ → ℕ → List Source × List ℚ
  | [], out, _ => ([], out)
  | s :: rest, out, frames =>
    let p := s.mix_into out frames
    let r := mixSources rest p.2 frames
    (p.1 :: r.1, r.2)

/-- `Mixer::process` (`lib.rs` lines 552-567).  The output region is the
first `frames * MIX_CHANNELS` samples of `buffer.data`. -/
def Mixer.process (m : Mixer) (buffer : AudioBuffer) :
    Mixer × AudioBuffer × Except MixerError ℕ :=
  if buffer.channels ≠ MIX_CHANNELS then
    (m, buffer, Except.error (MixerError.UnsupportedChannels buffer.channels))
  else
    let frames := buffer.frames
    if frames = 0 then (m, buffer, Except.ok 0)
    else
      let output := List.replicate (frames * MIX_CHANNELS) (0 : ℚ)
      let r := mixSources m.sources output frames
      ({ m with sources := r.1 },
       { buffer with data := r.2 ++ buffer.data.drop (frames * MIX_CHANNELS) },
       Except.ok frames)

/-! ## Claim C4: muted sources -/

/-- Claim C4: for every source whose mute flag is set, `mix_into` returns
immediately: it adds exactly 0 to every output sample (the output list is
unchanged) and leaves the whole source state — in particular the ring
`read_index`, delay line, resampler phase, `advance_deficit`,
`current_latency_setting` and `prev_frame` — unchanged. -/
theorem muted_mix_into_noop (s : Source) (out : List ℚ) (frames : ℕ)
    (h : s.mute = true) : s.mix_into out frames = (s, out) := by
  simp [Source.mix_into, h]

/-- Witness for C4 at a concrete muted source. -/
theorem muted_mix_into_noop_witness :
    ({ Source.new (RingState.new_local 2 2) 1 with mute := true } : Source).mix_into
        [1, 2] 1
      = ({ Source.new (RingState.new_local 2 2) 1 with mute := true }, [1, 2]) :=
  muted_mix_into_noop _ _ _ rfl

/-! ## Claim C1: `Mixer::process` dispatch -/

/-- Claim C1: `Mixer::process` returns `UnsupportedChannels(channels)` and
leaves the buffer (hence the output region) unmodified when the channel
count is not 2; returns `Ok 0` writing nothing when `frames = 0`;
otherwise it zeroes the `frames * 2` output samples, accumulates every
source's contribution via `mix_into` in registration order, and returns
`Ok frames`. -/
theorem mixer_process_spec (m : Mixer) (buffer : AudioBuffer) :
    (buffer.channels ≠ 2 →
      m.process buffer =
        (m, buffer, Except.error (MixerError.UnsupportedChannels buffer.channels))) ∧
    (buffer.channels = 2 → buffer.frames = 0 →
      m.process buffer = (m, buffer, Except.ok 0)) ∧
    (buffer.channels = 2 → 0 < buffer.frames →
      m.process buffer =
        ({ m with sources :=
            (mixSources m.sources
              (List.replicate (buffer.frames * MIX_CHANNELS) 0) buffer.frames).1 },
         { buffer with data :=
            (mixSources m.sources
              (List.replicate (buffer.frames * MIX_CHANNELS) 0) buffer.frames).2
              ++ buffer.data.drop (buffer.frames * MIX_CHANNELS) },
         Except.ok buffer.frames)) := by
  refine ⟨fun h => ?_, fun h2 h0 => ?_, fun h2 h0 => ?_⟩
  · simp [Mixer.process, MIX_CHANNELS, h]
  · simp [Mixer.process, MIX_CHANNELS, h2, h0]
  · have h0' : buffer.frames ≠ 0 := Nat.pos_iff_ne_zero.mp h0
    simp [Mixer.process, MIX_CHANNELS, h2, h0']

/-- Witness for C1 exercising all three branches on concrete buffers. -/
theorem mixer_process_spec_witness :
    ((⟨48000, 4, [], 1⟩ : Mixer).process ⟨[5, 6], 1, 1, 7⟩ =
      (⟨48000, 4, [], 1⟩, ⟨[5, 6], 1, 1, 7⟩,
        Except.error (MixerError.UnsupportedChannels 1))) ∧
    ((⟨48000, 4, [], 1⟩ : Mixer).process ⟨[5, 6], 0, 2, 7⟩ =
      (⟨48000, 4, [], 1⟩, ⟨[5, 6], 0, 2, 7⟩, Except.ok 0)) ∧
    ((⟨48000, 4, [], 1⟩ : Mixer).process ⟨[5, 6], 1, 2, 7⟩ =
      ({ (⟨48000, 4, [], 1⟩ : Mixer) with sources :=
          (mixSources [] (List.replicate (1 * MIX_CHANNELS) 0) 1).1 },
       { (⟨[5, 6], 1, 2, 7⟩ : AudioBuffer) with data :=
          (mixSources [] (List.replicate (1 * MIX_CHANNELS) 0) 1).2
            ++ ([5, 6].drop (1 * MIX_CHANNELS)) },
       Except.ok 1)) :=
  ⟨(mixer_process_spec _ _).1 (by decide),
   (mixer_process_spec _ _).2.1 rfl rfl,
   (mixer_process_spec _ _).2.2 rfl (by decide)⟩

/-! ## Claim C6: clock-feedback integrator -/

/-- Claim C6: when a prior timestamp pair exists and both deltas are
strictly positive, `submit_feedback` updates the smoothed ratio to
`smoothed + 0.05 * (clamp(source_delta / device_delta, 0.98, 1.02) -
smoothed)`, publishes it as the source's resampler ratio
(via `apply_clock_feedback`) and returns it; in all cases the stored
timestamp pair is replaced by the incoming pair; and `drift_ppm` always
equals `(smoothed - 1) * 1e6`. -/
theorem submit_feedback_spec :
    (∀ (src : Source) (device_ts source_ts prev_d prev_s : ℕ),
      src.clock.last_device_ts = some prev_d →
      src.clock.last_source_ts = some prev_s →
      prev_d < device_ts → prev_s < source_ts →
      (src.clock.submit_feedback device_ts source_ts).2 =
        some (src.clock.smoothed_ratio + alphaIIR *
          (min (max (((source_ts - prev_s : ℕ) : ℚ) / ((device_ts - prev_d : ℕ) : ℚ))
              (98 / 100)) (102 / 100) - src.clock.smoothed_ratio)) ∧
      src.apply_clock_feedback device_ts source_ts =
        { src with
            clock :=
              ⟨some device_ts, some source_ts,
                src.clock.smoothed_ratio + alphaIIR *
                  (min (max (((source_ts - prev_s : ℕ) : ℚ) / ((device_ts - prev_d : ℕ) : ℚ))
                      (98 / 100)) (102 / 100) - src.clock.smoothed_ratio)⟩
            resampler := { src.resampler with ratio :=
              src.clock.smoothed_ratio + alphaIIR *
                (min (max (((source_ts - prev_s : ℕ) : ℚ) / ((device_ts - prev_d : ℕ) : ℚ))
                    (98 / 100)) (102 / 100) - src.clock.smoothed_ratio) } }) ∧
    (∀ (c : ClockState) (device_ts source_ts : ℕ),
      (c.submit_feedback device_ts source_ts).1.last_device_ts = some device_ts ∧
      (c.submit_feedback device_ts source_ts).1.last_source_ts = some source_ts) ∧
    (∀ c : ClockState, c.drift_ppm = (c.smoothed_ratio - 1) * 1000000) := by
  refine ⟨fun src device_ts source_ts prev_d prev_s h1 h2 h3 h4 => ?_,
    fun c device_ts source_ts => ?_, fun c => rfl⟩
  · have hsub : src.clock.submit_feedback device_ts source_ts =
        ((⟨some device_ts, some source_ts,
          src.clock.smoothed_ratio + alphaIIR *
            (min (max (((source_ts - prev_s : ℕ) : ℚ) / ((device_ts - prev_d : ℕ) : ℚ))
                (98 / 100)) (102 / 100) - src.clock.smoothed_ratio)⟩ : ClockState),
         some (src.clock.smoothed_ratio + alphaIIR *
            (min (max (((source_ts - prev_s : ℕ) : ℚ) / ((device_ts - prev_d : ℕ) : ℚ))
                (98 / 100)) (102 / 100) - src.clock.smoothed_ratio))) := by
      have hd : (0 : ℚ) < ((device_ts - prev_d : ℕ) : ℚ) := by
        exact_mod_cast Nat.sub_pos_of_lt h3
      have hs : (0 : ℚ) < ((source_ts - prev_s : ℕ) : ℚ) := by
        exact_mod_cast Nat.sub_pos_of_lt h4
      simp only [ClockState.submit_feedback, h1, h2]
      rw [if_pos ⟨h3, h4⟩, if_pos ⟨hd, hs⟩]
    refine ⟨by rw [hsub], ?_⟩
    simp only [Source.apply_clock_feedback, hsub, Source.set_resample_ratio]
  · cases hld : c.last_device_ts <;> cases hls : c.last_source_ts <;>
      simp only [ClockState.submit_feedback, hld, hls] <;>
      constructor <;> first
        | trivial
        | (split_ifs <;> rfl)

/-- Witness for C6 at a concrete clock state:
`prev = (100, 200)`, feedback `(200, 301)`, so the clamped ratio is
`1.01` and the new smoothed ratio is `1 + 0.05 * 0.01 = 2001/2000`. -/
theorem submit_feedback_spec_witness :
    (({ Source.new (RingState.new_local 2 2) 1 with
          clock := ⟨some 100, some 200, 1⟩ } : Source).clock.submit_feedback 200 301).2 =
      some ((1 : ℚ) + alphaIIR * (min (max (((301 - 200 : ℕ) : ℚ) / ((200 - 100 : ℕ) : ℚ))
          (98 / 100)) (102 / 100) - 1)) := by
  have h := (submit_feedback_spec).1
    ({ Source.new (RingState.new_local 2 2) 1 with clock := ⟨some 100, some 200, 1⟩ })
    200 301 100 200 rfl rfl (by decide) (by decide)
  exact h.1

/-! ## Claim C2: ring `push` contract -/

lemma push_snd (s : RingState) (f : List ℚ) (ts : Option ℕ) (now : ℕ) :
    (s.push f ts now).2 =
      min (f.length / s.channels)
        (s.capacity_frames - min (s.write_index - s.read_index) s.capacity_frames) := by
  simp only [RingState.push]
  by_cases h1 : f.length / s.channels = 0
  · rw [if_pos h1]; simp [h1]
  · rw [if_neg h1]
    by_cases h2 :
        s.capacity_frames - min (s.write_index - s.read_index) s.capacity_frames = 0
    · rw [if_pos h2]; simp [h2]
    · rw [if_neg h2]

lemma push_of_empty_or_full (s : RingState) (f : List ℚ) (ts : Option ℕ) (now : ℕ)
    (h : f.length / s.channels = 0 ∨
      s.capacity_frames - min (s.write_index - s.read_index) s.capacity_frames = 0) :
    s.push f ts now = (s, 0) := by
  simp only [RingState.push]
  by_cases h1 : f.length / s.channels = 0
  · rw [if_pos h1]
  · rw [if_neg h1, if_pos (h.resolve_left h1)]

lemma push_fields (s : RingState) (f : List ℚ) (ts : Option ℕ) (now : ℕ)
    (h1 : ¬f.length / s.channels = 0)
    (h2 : ¬s.capacity_frames - min (s.write_index - s.read_index) s.capacity_frames = 0) :
    (s.push f ts now).1.write_index = s.write_index + (s.push f ts now).2 ∧
    (s.push f ts now).1.read_index = s.read_index ∧
    (s.push f ts now).1.channels = s.channels ∧
    (s.push f ts now).1.capacity_frames = s.capacity_frames ∧
    (s.push f ts now).1.last_timestamp_ns = ts.getD now := by
  simp only [RingState.push]
  rw [if_neg h1, if_neg h2]
  exact ⟨rfl, rfl, rfl, rfl, rfl⟩

/-- Claim C2: for a well-formed ring (`write - read ≤ capacity`), `push`
writes `min(len(frames) / channels, capacity - available)` frames with
`available = write_index - read_index`; a full ring leaves the state
unchanged and returns 0; a push writing at least one frame advances
`write_index` by the frames written and stores the given timestamp (or
the monotonic `now` when absent) into `last_timestamp_ns`, leaving
`read_index` untouched. -/
theorem ring_push_spec (s : RingState) (frames : List ℚ) (timestamp_ns : Option ℕ)
    (now : ℕ) (hwf : s.write_index - s.read_index ≤ s.capacity_frames) :
    ((s.push frames timestamp_ns now).2 =
      min (frames.length / s.channels)
        (s.capacity_frames - (s.write_index - s.read_index))) ∧
    (s.write_index - s.read_index = s.capacity_frames →
      s.push frames timestamp_ns now = (s, 0)) ∧
    (1 ≤ (s.push frames timestamp_ns now).2 →
      ((s.push frames timestamp_ns now).1.write_index =
         s.write_index + (s.push frames timestamp_ns now).2 ∧
       (s.push frames timestamp_ns now).1.read_index = s.read_index ∧
       (s.push frames timestamp_ns now).1.last_timestamp_ns =
         timestamp_ns.getD now)) := by
  refine ⟨?_, fun hfull => ?_, fun hone => ?_⟩
  · rw [push_snd]
    omega
  · exact push_of_empty_or_full s frames timestamp_ns now (Or.inr (by omega))
  · have hs := push_snd s frames timestamp_ns now
    have h1 : ¬frames.length / s.channels = 0 := by omega
    have h2 : ¬s.capacity_frames -
        min (s.write_index - s.read_index) s.capacity_frames = 0 := by omega
    have hf := push_fields s frames timestamp_ns now h1 h2
    exact ⟨hf.1, hf.2.1, hf.2.2.2.2⟩

/-- Witness for C2: a fresh 2-frame stereo ring accepts exactly 1 frame
from a 1-frame push and stamps the provided timestamp. -/
theorem ring_push_spec_witness :
    (((RingState.new_local 2 2).push [3, 4] (some 9) 5).2 =
      min ([3, 4].length / (RingState.new_local 2 2).channels)
        ((RingState.new_local 2 2).capacity_frames -
          ((RingState.new_local 2 2).write_index -
            (RingState.new_local 2 2).read_index))) ∧
    (((RingState.new_local 2 2).push [3, 4] (some 9) 5).1.write_index =
       (RingState.new_local 2 2).write_index +
         ((RingState.new_local 2 2).push [3, 4] (some 9) 5).2 ∧
     ((RingState.new_local 2 2).push [3, 4] (some 9) 5).1.read_index =
       (RingState.new_local 2 2).read_index ∧
     ((RingState.new_local 2 2).push [3, 4] (some 9) 5).1.last_timestamp_ns =
       (some 9).getD 5) :=
  ⟨(ring_push_spec (RingState.new_local 2 2) [3, 4] (some 9) 5 (by decide)).1,
   (ring_push_spec (RingState.new_local 2 2) [3, 4] (some 9) 5 (by decide)).2.2
     (by decide)⟩

/-! ## Claim C3: push/pop sequence invariant and conservation -/

/-- A producer/consumer operation on a ring buffer: a `push` with its
frame data, optional timestamp and monotonic-clock value, or a `pop` into
an output buffer of the given sample length. -/
inductive RingOp where
  | push (frames : List ℚ) (timestamp_ns : Option ℕ) (now : ℕ) : RingOp
  | pop (out_len : ℕ) : RingOp

/-- Run a sequence of ring operations, returning the final state together
with the total frames accepted by pushes and total frames returned by
pops. -/
def runOps : RingState → List RingOp → RingState × ℕ × ℕ
  | s, [] => (s, 0, 0)
  | s, RingOp.push frames ts now :: rest =>
    let p := s.push frames ts now
    let r := runOps p.1 rest
    (r.1, p.2 + r.2.1, r.2.2)
  | s, RingOp.pop out_len :: rest =>
    let p := s.pop out_len
    let r := runOps p.1 rest
    (r.1, r.2.1, p.2.1 + r.2.2)

lemma push_index_effect (s : RingState) (f : List ℚ) (ts : Option ℕ) (now : ℕ) :
    (s.push f ts now).1.read_index = s.read_index ∧
    (s.push f ts now).1.write_index = s.write_index + (s.push f ts now).2 ∧
    (s.push f ts now).1.capacity_frames = s.capacity_frames ∧
    (s.push f ts now).2 ≤
      s.capacity_frames - min (s.write_index - s.read_index) s.capacity_frames := by
  have hs := push_snd s f ts now
  by_cases h1 : f.length / s.channels = 0
  · rw [push_of_empty_or_full s f ts now (Or.inl h1)]
    exact ⟨rfl, by simp, rfl, by simp⟩
  · by_cases h2 :
        s.capacity_frames - min (s.write_index - s.read_index) s.capacity_frames = 0
    · rw [push_of_empty_or_full s f ts now (Or.inr h2)]
      exact ⟨rfl, by simp, rfl, by simp⟩
    · have hf := push_fields s f ts now h1 h2
      exact ⟨hf.2.1, hf.1, hf.2.2.2.1, by omega⟩

lemma pop_snd (s : RingState) (out_len : ℕ) :
    (s.pop out_len).2.1 =
      min (out_len / s.channels) (min (s.write_index - s.read_index) s.capacity_frames) := by
  simp only [RingState.pop]
  by_cases h1 : out_len / s.channels = 0
  · rw [if_pos h1]; simp [h1]
  · rw [if_neg h1]
    by_cases h2 : min (s.write_index - s.read_index) s.capacity_frames = 0
    · rw [if_pos h2]; simp [h2]
    · rw [if_neg h2]

lemma pop_of_empty (s : RingState) (out_len : ℕ)
    (h : out_len / s.channels = 0 ∨
      min (s.write_index - s.read_index) s.capacity_frames = 0) :
    s.pop out_len = (s, 0, []) := by
  simp only [RingState.pop]
  by_cases h1 : out_len / s.channels = 0
  · rw [if_pos h1]
  · rw [if_neg h1, if_pos (h.resolve_left h1)]

lemma pop_fields (s : RingState) (out_len : ℕ)
    (h1 : ¬out_len / s.channels = 0)
    (h2 : ¬min (s.write_index - s.read_index) s.capacity_frames = 0) :
    (s.pop out_len).1.write_index = s.write_index ∧
    (s.pop out_len).1.read_index = s.read_index + (s.pop out_len).2.1 ∧
    (s.pop out_len).1.channels = s.channels ∧
    (s.pop out_len).1.capacity_frames = s.capacity_frames ∧
    (s.pop out_len).1.data = s.data ∧
    (s.pop out_len).1.last_timestamp_ns = s.last_timestamp_ns := by
  simp only [RingState.pop]
  rw [if_neg h1, if_neg h2]
  exact ⟨rfl, rfl, rfl, rfl, rfl, rfl⟩

lemma pop_index_effect (s : RingState) (out_len : ℕ) :
    (s.pop out_len).1.write_index = s.write_index ∧
    (s.pop out_len).1.read_index = s.read_index + (s.pop out_len).2.1 ∧
    (s.pop out_len).1.capacity_frames = s.capacity_frames ∧
    (s.pop out_len).2.1 ≤ min (s.write_index - s.read_index) s.capacity_frames := by
  have hs := pop_snd s out_len
  by_cases h1 : out_len / s.channels = 0
  · rw [pop_of_empty s out_len (Or.inl h1)]
    exact ⟨rfl, by simp, rfl, by simp⟩
  · by_cases h2 : min (s.write_index - s.read_index) s.capacity_frames = 0
    · rw [pop_of_empty s out_len (Or.inr h2)]
      exact ⟨rfl, by simp, rfl, by simp⟩
    · have hf := pop_fields s out_len h1 h2
      exact ⟨hf.1, hf.2.1, hf.2.2.2.1, by omega⟩

lemma runOps_invariant : ∀ (ops : List RingOp) (s : RingState),
    s.read_index ≤ s.write_index →
    s.write_index - s.read_index ≤ s.capacity_frames →
    (runOps s ops).1.capacity_frames = s.capacity_frames ∧
    (runOps s ops).1.read_index ≤ (runOps s ops).1.write_index ∧
    (runOps s ops).1.write_index - (runOps s ops).1.read_index ≤ s.capacity_frames ∧
    (runOps s ops).1.write_index = s.write_index + (runOps s ops).2.1 ∧
    (runOps s ops).1.read_index = s.read_index + (runOps s ops).2.2
  | [], s, h1, h2 => ⟨rfl, by simpa [runOps] using h1, by simpa [runOps] using h2,
      by simp [runOps], by simp [runOps]⟩
  | RingOp.push f ts now :: rest, s, h1, h2 => by
    have hp := push_index_effect s f ts now
    have ih := runOps_invariant rest (s.push f ts now).1
      (by omega) (by omega)
    simp only [runOps]
    refine ⟨by omega, by omega, by omega, by omega, by omega⟩
  | RingOp.pop out_len :: rest, s, h1, h2 => by
    have hp := pop_index_effect s out_len
    have ih := runOps_invariant rest (s.pop out_len).1
      (by omega) (by omega)
    simp only [runOps]
    refine ⟨by omega, by omega, by omega, by omega, by omega⟩

/-- Claim C3: starting from a fresh ring, after any finite sequence of
`push`/`pop` operations the invariant `available_read ≤ capacity_frames`
holds (it holds after every step since the prefix of a sequence is a
sequence), and the total frames accepted by pushes equals the total
frames returned by pops plus `available_read`. -/
theorem ring_ops_conservation (capacity : ℕ) (ops : List RingOp) :
    (runOps (RingState.new_local capacity 2) ops).1.available_read ≤ capacity ∧
    (runOps (RingState.new_local capacity 2) ops).2.1 =
      (runOps (RingState.new_local capacity 2) ops).2.2 +
        (runOps (RingState.new_local capacity 2) ops).1.available_read := by
  have h := runOps_invariant ops (RingState.new_local capacity 2)
    (by simp [RingState.new_local]) (by simp [RingState.new_local])
  have hw : (RingState.new_local capacity 2).write_index = 0 := rfl
  have hr : (RingState.new_local capacity 2).read_index = 0 := rfl
  have hc : (RingState.new_local capacity 2).capacity_frames = capacity := rfl
  rw [hw, hr, hc] at h
  simp only [RingState.available_read]
  omega

/-! ## Claim C7: delay line -/

lemma getD_set_self (l : List Frame) (i : ℕ) (x d : Frame) (h : i < l.length) :
    (l.set i x).getD i d = x := by
  rw [List.getD_eq_getElem _ _ (by simpa using h)]
  simp [List.getElem_set_self]

lemma getD_set_ne (l : List Frame) (i j : ℕ) (x d : Frame) (h : i ≠ j) :
    (l.set i x).getD j d = l.getD j d := by
  simp [List.getD_eq_getElem?_getD, List.getElem?_set_ne h]

lemma mod_shift_inj (r i j c : ℕ) (hi : i < c) (hj : j < c)
    (h : (r + i) % c = (r + j) % c) : i = j := by
  have h1 : i % c = j % c := Nat.ModEq.add_left_cancel' r h
  rwa [Nat.mod_eq_of_lt hi, Nat.mod_eq_of_lt hj] at h1

/-- Well-formedness of a delay line: the buffer has length `capacity`,
indices are in range, and `write_idx` sits `len` past `read_idx`. -/
def DelayLine.wf (d : DelayLine) : Prop :=
  d.buffer.length = d.capacity ∧ 0 < d.capacity ∧ d.read_idx < d.capacity ∧
    d.len ≤ d.capacity ∧ d.write_idx = (d.read_idx + d.len) % d.capacity

/-- The logical queue held by a delay line: the `len` frames starting at
`read_idx`. -/
def DelayLine.queue (d : DelayLine) : List Frame :=
  (List.range d.len).map fun i => d.buffer.getD ((d.read_idx + i) % d.capacity) equilibrium

lemma queue_length (d : DelayLine) : d.queue.length = d.len := by
  simp [DelayLine.queue]

lemma process_frame_eq_pop (d : DelayLine) (x : Frame)
    (hlen_lt : d.len < d.capacity) (hfire : d.target_delay < d.len + 1) :
    d.process_frame x =
      ({ d with
          buffer := d.buffer.set d.write_idx x
          write_idx := (d.write_idx + 1) % d.capacity
          read_idx := (d.read_idx + 1) % d.capacity
          len := d.len + 1 - 1 },
       (d.buffer.set d.write_idx x).getD d.read_idx equilibrium) := by
  simp only [DelayLine.process_frame, DelayLine.pop_internal]
  rw [if_pos hlen_lt]
  rw [if_pos hfire, if_neg (by omega : ¬d.len + 1 = 0)]
  rfl

lemma process_frame_eq_nopop (d : DelayLine) (x : Frame)
    (hlen_lt : d.len < d.capacity) (hnofire : ¬d.target_delay < d.len + 1) :
    d.process_frame x =
      ({ d with
          buffer := d.buffer.set d.write_idx x
          write_idx := (d.write_idx + 1) % d.capacity
          len := d.len + 1 },
       equilibrium) := by
  simp only [DelayLine.process_frame]
  rw [if_pos hlen_lt]
  rw [if_neg hnofire]

lemma process_frame_step (d : DelayLine) (x : Frame)
    (hwf : d.wf) (hlt : d.len ≤ d.target_delay) (htc : d.target_delay < d.capacity) :
    (d.process_frame x).1.wf ∧
    (d.process_frame x).1.capacity = d.capacity ∧
    (d.process_frame x).1.target_delay = d.target_delay ∧
    (if d.len = d.target_delay then
      (d.process_frame x).1.len = d.len ∧
      (d.process_frame x).1.queue = (d.queue ++ [x]).tail ∧
      (d.process_frame x).2 = (d.queue ++ [x]).headD equilibrium
    else
      (d.process_frame x).1.len = d.len + 1 ∧
      (d.process_frame x).1.queue = d.queue ++ [x] ∧
      (d.process_frame x).2 = equilibrium) := by
  obtain ⟨hblen, hcpos, hrlt, hlc, hwr⟩ := hwf
  have hlen_lt : d.len < d.capacity := lt_of_le_of_lt hlt htc
  have hwlt : d.write_idx < d.capacity := by
    rw [hwr]; exact Nat.mod_lt _ hcpos
  have hbuf2len : (d.buffer.set d.write_idx x).length = d.capacity := by
    rw [List.length_set, hblen]
  have hwrite_pos : (d.read_idx + d.len) % d.capacity = d.write_idx := hwr.symm
  have hget_new : (d.buffer.set d.write_idx x).getD
      ((d.read_idx + d.len) % d.capacity) equilibrium = x := by
    rw [hwrite_pos]
    exact getD_set_self _ _ _ _ (by rw [hblen]; exact hwlt)
  have hget_old : ∀ i, i < d.len →
      (d.buffer.set d.write_idx x).getD ((d.read_idx + i) % d.capacity) equilibrium =
        d.buffer.getD ((d.read_idx + i) % d.capacity) equilibrium := by
    intro i hi
    refine getD_set_ne _ _ _ _ _ fun hcontra => ?_
    rw [← hwrite_pos] at hcontra
    exact absurd (mod_shift_inj d.read_idx d.len i d.capacity hlen_lt
      (lt_trans hi hlen_lt) hcontra) (by omega)
  have hq2 : (List.range (d.len + 1)).map
        (fun i => (d.buffer.set d.write_idx x).getD
          ((d.read_idx + i) % d.capacity) equilibrium) =
      d.queue ++ [x] := by
    rw [List.range_succ, List.map_append, List.map_singleton, hget_new]
    congr 1
    exact List.map_congr_left fun i hi => hget_old i (List.mem_range.mp hi)
  by_cases hcase : d.len = d.target_delay
  · rw [process_frame_eq_pop d x hlen_lt (by omega)]
    have hq_tail : (({ d with
          buffer := d.buffer.set d.write_idx x
          write_idx := (d.write_idx + 1) % d.capacity
          read_idx := (d.read_idx + 1) % d.capacity
          len := d.len + 1 - 1 } : DelayLine)).queue = (d.queue ++ [x]).tail := by
      rw [← hq2, List.range_succ_eq_map, List.map_cons, List.tail_cons, List.map_map]
      simp only [DelayLine.queue, Nat.add_sub_cancel]
      refine List.map_congr_left fun i hi => ?_
      simp only [Function.comp_apply]
      congr 1
      rw [Nat.mod_add_mod]
      congr 1
      omega
    have hhead : (d.buffer.set d.write_idx x).getD d.read_idx equilibrium =
        (d.queue ++ [x]).headD equilibrium := by
      rw [← hq2, List.range_succ_eq_map, List.map_cons, List.headD_cons]
      congr 1
      rw [Nat.add_zero, Nat.mod_eq_of_lt hrlt]
    refine ⟨⟨hbuf2len, hcpos, Nat.mod_lt _ hcpos,
        by show d.len + 1 - 1 ≤ d.capacity; omega, ?_⟩, rfl, rfl, ?_⟩
    · show (d.write_idx + 1) % d.capacity =
        ((d.read_idx + 1) % d.capacity + (d.len + 1 - 1)) % d.capacity
      rw [Nat.mod_add_mod, hwr, Nat.mod_add_mod]
      congr 1
      omega
    · rw [if_pos hcase]
      exact ⟨rfl, hq_tail, hhead⟩
  · rw [process_frame_eq_nopop d x hlen_lt (by omega)]
    have hq_app : (({ d with
          buffer := d.buffer.set d.write_idx x
          write_idx := (d.write_idx + 1) % d.capacity
          len := d.len + 1 } : DelayLine)).queue = d.queue ++ [x] := by
      rw [← hq2]
      rfl
    refine ⟨⟨hbuf2len, hcpos, hrlt,
        by show d.len + 1 ≤ d.capacity; omega, ?_⟩, rfl, rfl, ?_⟩
    · show (d.write_idx + 1) % d.capacity = (d.read_idx + (d.len + 1)) % d.capacity
      rw [hwr, Nat.mod_add_mod]
      congr 1
    · rw [if_neg hcase]
      exact ⟨rfl, hq_app, rfl⟩

lemma run_outputs (t : ℕ) : ∀ (xs : List Frame) (d : DelayLine),
    d.wf → d.target_delay = t → d.len ≤ t → t < d.capacity →
    (d.run xs).2 =
      (List.replicate (t - d.len) equilibrium ++ d.queue ++ xs).take xs.length
  | [], d, _, _, _, _ => by simp [DelayLine.run]
  | x :: xs, d, hwf, htar, hlen, htc => by
    have hstep := process_frame_step d x hwf (by rw [htar]; exact hlen)
      (by rw [htar]; exact htc)
    obtain ⟨hwf2, hcap2, htar2, hrest⟩ := hstep
    by_cases hcase : d.len = d.target_delay
    · rw [if_pos hcase] at hrest
      obtain ⟨hlen2, hq2, hout2⟩ := hrest
      have ih := run_outputs t xs (d.process_frame x).1 hwf2
        (by rw [htar2, htar]) (by rw [hlen2]; exact hlen) (by rw [hcap2]; exact htc)
      have hzero : t - d.len = 0 := by omega
      simp only [DelayLine.run, ih, hq2, hlen2, hout2, hzero, List.replicate_zero,
        List.nil_append, List.length_cons]
      rcases hsplit : d.queue ++ [x] with _ | ⟨y, L⟩
      · exact absurd hsplit (by simp)
      · have hassoc : d.queue ++ x :: xs = (d.queue ++ [x]) ++ xs := by simp
        rw [hsplit] at hassoc
        rw [hassoc]
        simp [List.take_succ_cons]
    · rw [if_neg hcase] at hrest
      obtain ⟨hlen2, hq2, hout2⟩ := hrest
      have ih := run_outputs t xs (d.process_frame x).1 hwf2
        (by rw [htar2, htar]) (by omega) (by rw [hcap2]; exact htc)
      simp only [DelayLine.run, ih, hq2, hlen2, hout2, List.length_cons]
      have hrep : t - d.len = (t - (d.len + 1)) + 1 := by
        have := queue_length d
        omega
      rw [hrep, List.replicate_succ]
      simp [List.take_succ_cons, List.append_assoc]

/-- Claim C7: `set_target(frames)` sets the target delay to
`min(frames, capacity - 1)`, and a fresh delay line driven by
`process_frame` emits silence for the first `target_delay` inputs and
thereafter the `k`-th call returns the `(k - target_delay)`-th input:
the output stream is `target_delay` frames of silence followed by the
inputs in order. -/
theorem delay_line_spec :
    (∀ (d : DelayLine) (frames : ℕ),
      (d.set_target frames).target_delay = min frames (d.capacity - 1)) ∧
    (∀ (capacity t : ℕ) (xs : List Frame),
      (((DelayLine.new capacity).set_target t).run xs).2 =
        List.replicate
            (min xs.length (((DelayLine.new capacity).set_target t).target_delay))
            equilibrium
          ++ xs.take
              (xs.length - ((DelayLine.new capacity).set_target t).target_delay)) := by
  constructor
  · intro d frames
    rfl
  · intro capacity t xs
    have hcap : ((DelayLine.new capacity).set_target t).capacity = max capacity 32 := rfl
    have htar : ((DelayLine.new capacity).set_target t).target_delay =
        min t (max capacity 32 - 1) := rfl
    have hlen0 : ((DelayLine.new capacity).set_target t).len = 0 := rfl
    have hwf : ((DelayLine.new capacity).set_target t).wf := by
      refine ⟨?_, ?_, ?_, ?_, ?_⟩
      · show (List.replicate (max capacity 32) equilibrium).length = max capacity 32
        simp
      · show 0 < max capacity 32
        omega
      · show 0 < max capacity 32
        omega
      · show 0 ≤ max capacity 32
        omega
      · show 0 = (0 + 0) % max capacity 32
        simp
    have h := run_outputs (min t (max capacity 32 - 1)) xs
      ((DelayLine.new capacity).set_target t) hwf htar (by omega)
      (by rw [hcap]; omega)
    rw [h, htar, hlen0]
    have hq : ((DelayLine.new capacity).set_target t).queue = [] := rfl
    rw [hq, Nat.sub_zero, List.append_nil, List.take_append_eq_append_take,
      List.take_replicate, List.length_replicate]

/-! ## Claim C5: latency-state update and advance deficit -/

/-- Counterexample to C5 as stated: for a desired latency of 100 frames on
a source whose delay line has capacity 32, `update_latency_state` sets the
delay-line target to `min(100, 31) = 31`, not to the desired 100 — the
claim's "the delay-line target is set to desired" ignores the
`set_target` clamp at `capacity - 1`. -/
theorem latency_update_counterexample :
    (({ Source.new (RingState.new_local 4 2) 1 with
        latency_frames := 100 } : Source).update_latency_state).delay_line.target_delay
      = 31 ∧ (31 : ℕ) ≠ 100 :=
  ⟨rfl, by decide⟩

/-- Claim C5 (amended: the delay-line target is set to
`min(desired, capacity - 1)`, since `set_target` clamps): at the start of
every unmuted `mix_into`, if the desired latency differs from the current
setting then for `desired ≥ 0` the delay-line target becomes
`min(desired, capacity - 1)` and `advance_deficit` is cleared; for
`desired < 0` the target becomes 0, up to `|desired|` frames are dropped
from the delay line, and the undropped remainder becomes
`advance_deficit`, which each unmuted `mix_into` then discards from the
ring (up to what is available) before resampling until it reaches 0. -/
theorem latency_state_spec :
    (∀ s : Source, s.latency_frames = s.current_latency_setting →
      s.update_latency_state = s) ∧
    (∀ s : Source, s.latency_frames ≠ s.current_latency_setting →
      0 ≤ s.latency_frames →
      s.update_latency_state =
        { s with
            delay_line := s.delay_line.set_target s.latency_frames.toNat
            advance_deficit := 0
            current_latency_setting := s.latency_frames } ∧
      (s.update_latency_state).delay_line.target_delay =
        min s.latency_frames.toNat (s.delay_line.capacity - 1)) ∧
    (∀ s : Source, s.latency_frames ≠ s.current_latency_setting →
      s.latency_frames < 0 →
      s.update_latency_state =
        { s with
            delay_line := ((s.delay_line.set_target 0).drop_frames
              s.latency_frames.natAbs).1
            advance_deficit :=
              s.latency_frames.natAbs - min s.latency_frames.natAbs s.delay_line.len
            current_latency_setting := s.latency_frames } ∧
      ((s.delay_line.set_target 0).drop_frames s.latency_frames.natAbs).2 =
        min s.latency_frames.natAbs s.delay_line.len ∧
      (s.update_latency_state).delay_line.target_delay = 0) ∧
    (∀ s : Source, 0 < s.advance_deficit →
      s.apply_advance_deficit =
        { s with
            ring := (s.ring.discard s.advance_deficit).1
            advance_deficit :=
              s.advance_deficit - (s.ring.discard s.advance_deficit).2 } ∧
      (s.ring.discard s.advance_deficit).2 =
        min s.advance_deficit s.ring.available_read ∧
      (s.ring.discard s.advance_deficit).1.read_index =
        s.ring.read_index + min s.advance_deficit s.ring.available_read) ∧
    (∀ (s : Source) (out : List ℚ) (frames : ℕ), s.mute = false →
      s.mix_into out frames =
        (s.update_latency_state.apply_advance_deficit).resample_and_mix out frames) := by
  refine ⟨fun s h => ?_, fun s h h0 => ?_, fun s h h0 => ?_, fun s h => ?_,
    fun s out frames h => ?_⟩
  · simp [Source.update_latency_state, h]
  · have hupd : s.update_latency_state =
        { s with
            delay_line := s.delay_line.set_target s.latency_frames.toNat
            advance_deficit := 0
            current_latency_setting := s.latency_frames } := by
      simp only [Source.update_latency_state]
      rw [if_neg h, if_pos h0]
    exact ⟨hupd, by rw [hupd]; rfl⟩
  · have hupd : s.update_latency_state =
        { s with
            delay_line := ((s.delay_line.set_target 0).drop_frames
              s.latency_frames.natAbs).1
            advance_deficit :=
              s.latency_frames.natAbs - min s.latency_frames.natAbs s.delay_line.len
            current_latency_setting := s.latency_frames } := by
      simp only [Source.update_latency_state]
      rw [if_neg h, if_neg (not_le.mpr h0)]
      rfl
    refine ⟨hupd, rfl, ?_⟩
    rw [hupd]
    show (((s.delay_line.set_target 0).drop_frames
      s.latency_frames.natAbs).1).target_delay = 0
    have htar0 : (s.delay_line.set_target 0).target_delay = 0 := by
      simp [DelayLine.set_target]
    have hdrop : ∀ (n : ℕ) (d : DelayLine),
        (d.popN n).target_delay = d.target_delay := by
      intro n
      induction n with
      | zero => intro d; rfl
      | succ k ih =>
        intro d
        show ((d.pop_internal.1).popN k).target_delay = d.target_delay
        rw [ih]
        simp only [DelayLine.pop_internal]
        split_ifs <;> rfl
    rw [DelayLine.drop_frames, hdrop, htar0]
  · refine ⟨by simp [Source.apply_advance_deficit, h], ?_, ?_⟩ <;>
      · simp only [RingState.discard, RingState.available_read]
        split_ifs with hav <;> simp <;> omega
  · simp [Source.mix_into, h]

/-- Witness for the amended C5 at a concrete source: desired latency `-3`
with an empty delay line becomes an advance deficit of 3, one frame of
which is immediately discarded from a ring holding one frame. -/
theorem latency_state_spec_witness :
    (({ Source.new (RingState.new_local 4 2) 1 with
        latency_frames := -3 } : Source).update_latency_state =
      { ({ Source.new (RingState.new_local 4 2) 1 with
            latency_frames := -3 } : Source) with
          delay_line := ((({ Source.new (RingState.new_local 4 2) 1 with
              latency_frames := -3 } : Source).delay_line.set_target 0).drop_frames
            ((-3 : ℤ)).natAbs).1
          advance_deficit := ((-3 : ℤ)).natAbs - min ((-3 : ℤ)).natAbs
            ({ Source.new (RingState.new_local 4 2) 1 with
                latency_frames := -3 } : Source).delay_line.len
          current_latency_setting := -3 }) ∧
    (({ Source.new (RingState.new_local 4 2) 1 with
        advance_deficit := 3, ring := { RingState.new_local 4 2 with
          write_index := 1 } } : Source).apply_advance_deficit =
      { ({ Source.new (RingState.new_local 4 2) 1 with
            advance_deficit := 3, ring := { RingState.new_local 4 2 with
              write_index := 1 } } : Source) with
          ring := (({ RingState.new_local 4 2 with
            write_index := 1 } : RingState).discard 3).1
          advance_deficit := 3 - (({ RingState.new_local 4 2 with
            write_index := 1 } : RingState).discard 3).2 }) :=
  ⟨((latency_state_spec).2.2.1 _ (by decide) (by decide)).1,
   ((latency_state_spec).2.2.2.1 _ (by decide)).1⟩

/-! ## Claim C10: the scratch-size guard is unreachable within the block
limit -/

/-- Claim C10: `Source::new` preallocates
`max_block_frames * MIX_CHANNELS * 4` scratch samples, and for any
`frames ≤ max_block_frames` (with `max_block_frames ≥ 1`) the scratch
requirement `(ceil(frames * ratio) + 2) * 2` computed with the clamped
ratio (at most 1.05) never exceeds it, so the scratch-too-small early
return in `mix_into` is unreachable. -/
theorem scratch_guard_spec :
    (∀ (ring : RingState) (max_block_frames : ℕ),
      (Source.new ring max_block_frames).scratch.length =
        max_block_frames * MIX_CHANNELS * 4) ∧
    (∀ (max_block_frames frames : ℕ) (ratio : ℚ),
      1 ≤ max_block_frames → frames ≤ max_block_frames →
      scratch_needed frames (clampRatio ratio) ≤
        max_block_frames * MIX_CHANNELS * 4) := by
  constructor
  · intro ring max_block_frames
    simp [Source.new]
  · intro mb frames ratio hmb hf
    have hr : clampRatio ratio ≤ 105 / 100 := min_le_right _ _
    have hr0 : (0 : ℚ) ≤ clampRatio ratio :=
      le_min (le_trans (by norm_num) (le_max_right _ _)) (by norm_num)
    have hmul : (frames : ℚ) * clampRatio ratio ≤ (mb : ℚ) * (105 / 100) := by
      have hfq : (frames : ℚ) ≤ (mb : ℚ) := by exact_mod_cast hf
      have h0f : (0 : ℚ) ≤ (mb : ℚ) := by positivity
      exact mul_le_mul hfq hr hr0 h0f
    have hceil : ⌈(frames : ℚ) * clampRatio ratio⌉ ≤ (4 * (mb : ℤ) - 2) := by
      refine le_trans (Int.ceil_mono hmul) (Int.ceil_le.mpr ?_)
      have hmbq : (1 : ℚ) ≤ (mb : ℚ) := by exact_mod_cast hmb
      push_cast
      linarith
    have htn : (⌈(frames : ℚ) * clampRatio ratio⌉).toNat ≤ 4 * mb - 2 := by
      rw [Int.toNat_le]
      refine le_trans hceil ?_
      omega
    show (⌈(frames : ℚ) * clampRatio ratio⌉.toNat + 2) * MIX_CHANNELS ≤
      mb * MIX_CHANNELS * 4
    show (⌈(frames : ℚ) * clampRatio ratio⌉.toNat + 2) * 2 ≤ mb * 2 * 4
    omega

/-- Witness for C10 at `max_block_frames = frames = 1`, `ratio = 1`. -/
theorem scratch_guard_spec_witness :
    scratch_needed 1 (clampRatio 1) ≤ 1 * MIX_CHANNELS * 4 :=
  (scratch_guard_spec).2 1 1 1 (le_refl 1) (le_refl 1)

/-! ## Claim C8: ratio-1 identity of the resampler -/

lemma addAt_length (out : List ℚ) (i : ℕ) (v : ℚ) :
    (addAt out i v).length = out.length := by
  simp [addAt]

lemma addAt_getD_self (out : List ℚ) (i : ℕ) (v : ℚ) (h : i < out.length) :
    (addAt out i v).getD i 0 = out.getD i 0 + v := by
  simp [addAt, List.getD_eq_getElem?_getD, List.getElem?_set_eq_of_lt _ h]

lemma addAt_getD_ne (out : List ℚ) (i j : ℕ) (v : ℚ) (h : i ≠ j) :
    (addAt out i v).getD j 0 = out.getD j 0 := by
  simp [addAt, List.getD_eq_getElem?_getD, List.getElem?_set_ne h]

/-- A delay line with `len = 0` and `target_delay = 0` passes each frame
straight through, and the pass-through shape is preserved. -/
lemma delay_identity (dl : DelayLine) (x : Frame)
    (hlen : dl.len = 0) (htar : dl.target_delay = 0)
    (hrw : dl.read_idx = dl.write_idx) (hwlt : dl.write_idx < dl.capacity)
    (hblen : dl.buffer.length = dl.capacity) :
    (dl.process_frame x).2 = x ∧
    (dl.process_frame x).1.len = 0 ∧
    (dl.process_frame x).1.target_delay = 0 ∧
    (dl.process_frame x).1.read_idx = (dl.process_frame x).1.write_idx ∧
    (dl.process_frame x).1.write_idx < (dl.process_frame x).1.capacity ∧
    (dl.process_frame x).1.buffer.length = (dl.process_frame x).1.capacity := by
  have hcpos : 0 < dl.capacity := lt_of_le_of_lt (Nat.zero_le _) hwlt
  rw [process_frame_eq_pop dl x (by omega) (by omega)]
  refine ⟨?_, by simp [hlen], htar, by rw [hrw], ?_, ?_⟩
  · show (dl.buffer.set dl.write_idx x).getD dl.read_idx equilibrium = x
    rw [hrw]
    exact getD_set_self _ _ _ _ (by rw [hblen]; exact hwlt)
  · show (dl.write_idx + 1) % dl.capacity < dl.capacity
    exact Nat.mod_lt _ hcpos
  · show (dl.buffer.set dl.write_idx x).length = dl.capacity
    rw [List.length_set, hblen]

/-- One unfolding of the `mix_into` resampling loop at ratio 1 and
phase 0: the interpolated frame is exactly scratch frame `p`, the phase
returns to 0, and the cursor advances by one. -/
lemma mixLoop_step_ratio_one (scratch : List ℚ) (la n p : ℕ) (dl : DelayLine)
    (out : List ℚ) (hpla : p < la) :
    mixLoop scratch la 1 1 (n + 1) p p 0 dl out =
      mixLoop scratch la 1 1 n (p + 1) (p + 1) 0
        (dl.process_frame (read_interleaved scratch p)).1
        (addAt (addAt out (p * MIX_CHANNELS)
            ((dl.process_frame (read_interleaved scratch p)).2.1 * 1))
          (p * MIX_CHANNELS + 1)
          ((dl.process_frame (read_interleaved scratch p)).2.2 * 1)) := by
  have h1 : ¬la ≤ p := by omega
  have h3 : min (p + 1) la = p + 1 := by omega
  simp only [mixLoop]
  rw [if_neg h1]
  norm_num [h3]

/-- The main `mix_into` loop at ratio 1, phase 0 and gain 1 with a
pass-through delay line adds scratch frame `p + i` to output frame
`p + i` on the `i`-th iteration, ends with phase 0, and advances the
cursor one frame per produced frame. -/
lemma mixLoop_ratio_one (scratch : List ℚ) (la : ℕ) :
    ∀ (n p : ℕ) (dl : DelayLine) (out : List ℚ),
    dl.len = 0 → dl.target_delay = 0 → dl.read_idx = dl.write_idx →
    dl.write_idx < dl.capacity → dl.buffer.length = dl.capacity →
    p + n ≤ la →
    (mixLoop scratch la 1 1 n p p 0 dl out).1 = p + n ∧
    (mixLoop scratch la 1 1 n p p 0 dl out).2.1 = 0 ∧
    (mixLoop scratch la 1 1 n p p 0 dl out).2.2.2.length = out.length ∧
    (∀ i, i < out.length →
      (mixLoop scratch la 1 1 n p p 0 dl out).2.2.2.getD i 0 =
        if 2 * p ≤ i ∧ i < 2 * (p + n) then out.getD i 0 + scratch.getD i 0
        else out.getD i 0)
  | 0, p, dl, out, _, _, _, _, _, _ => by
    refine ⟨rfl, rfl, rfl, fun i hi => ?_⟩
    rw [if_neg (by omega)]
    rfl
  | n + 1, p, dl, out, hlen, htar, hrw, hwlt, hblen, hla => by
    obtain ⟨hofr, hlen2, htar2, hrw2, hwlt2, hblen2⟩ :=
      delay_identity dl (read_interleaved scratch p) hlen htar hrw hwlt hblen
    rw [mixLoop_step_ratio_one scratch la n p dl out (by omega)]
    have hb : p * MIX_CHANNELS = 2 * p := by
      show p * 2 = 2 * p
      ring
    have ih := mixLoop_ratio_one scratch la n (p + 1)
      (dl.process_frame (read_interleaved scratch p)).1
      (addAt (addAt out (p * MIX_CHANNELS)
          ((dl.process_frame (read_interleaved scratch p)).2.1 * 1))
        (p * MIX_CHANNELS + 1)
        ((dl.process_frame (read_interleaved scratch p)).2.2 * 1))
      hlen2 htar2 hrw2 hwlt2 hblen2 (by omega)
    have hl1 : (addAt (addAt out (p * MIX_CHANNELS)
          ((dl.process_frame (read_interleaved scratch p)).2.1 * 1))
        (p * MIX_CHANNELS + 1)
        ((dl.process_frame (read_interleaved scratch p)).2.2 * 1)).length =
        out.length := by
      rw [addAt_length, addAt_length]
    have hval1 : (dl.process_frame (read_interleaved scratch p)).2.1 * 1 =
        scratch.getD (p * MIX_CHANNELS) 0 := by
      rw [hofr, mul_one]
      rfl
    have hval2 : (dl.process_frame (read_interleaved scratch p)).2.2 * 1 =
        scratch.getD (p * MIX_CHANNELS + 1) 0 := by
      rw [hofr, mul_one]
      rfl
    have hout1 : ∀ i, i < out.length →
        (addAt (addAt out (p * MIX_CHANNELS)
            ((dl.process_frame (read_interleaved scratch p)).2.1 * 1))
          (p * MIX_CHANNELS + 1)
          ((dl.process_frame (read_interleaved scratch p)).2.2 * 1)).getD i 0 =
        if i = 2 * p ∨ i = 2 * p + 1 then out.getD i 0 + scratch.getD i 0
        else out.getD i 0 := by
      intro i hi
      rcases Nat.lt_trichotomy i (2 * p) with hcmp | hcmp | hcmp
      · rw [if_neg (by omega)]
        rw [addAt_getD_ne _ _ _ _ (by omega), addAt_getD_ne _ _ _ _ (by omega)]
      · rw [if_pos (Or.inl hcmp)]
        rw [addAt_getD_ne _ _ _ _ (by omega)]
        rw [hcmp, ← hb, addAt_getD_self _ _ _ (by omega), hval1]
      · by_cases heq : i = 2 * p + 1
        · rw [if_pos (Or.inr heq)]
          rw [heq, ← hb]
          rw [addAt_getD_self _ _ _ (by rw [addAt_length]; omega), hval2]
          rw [addAt_getD_ne _ _ _ _ (by omega)]
        · rw [if_neg (by omega)]
          rw [addAt_getD_ne _ _ _ _ (by omega), addAt_getD_ne _ _ _ _ (by omega)]
    refine ⟨by rw [ih.1]; omega, ih.2.1, by rw [ih.2.2.1, hl1], fun i hi => ?_⟩
    rw [ih.2.2.2 i (by rw [hl1]; exact hi), hout1 i hi]
    by_cases hc1 : 2 * (p + 1) ≤ i ∧ i < 2 * (p + 1 + n)
    · rw [if_pos hc1, if_neg (by omega), if_pos (by omega)]
    · rw [if_neg hc1]
      by_cases hc2 : i = 2 * p ∨ i = 2 * p + 1
      · rw [if_pos hc2, if_pos (by omega)]
      · rw [if_neg hc2, if_neg (by omega)]

/-- A pop of `k` whole frames from a stereo ring holding at least `k`
frames reads exactly `k` frames (with `k * 2` samples of content) and
advances only `read_index`. -/
lemma pop_exact (r : RingState) (k : ℕ) (hch : r.channels = MIX_CHANNELS)
    (hk : 0 < k)
    (havail : k ≤ min (r.write_index - r.read_index) r.capacity_frames)
    (hdata : r.data.length = r.capacity_frames * MIX_CHANNELS) :
    (r.pop (k * MIX_CHANNELS)).2.1 = k ∧
    (r.pop (k * MIX_CHANNELS)).2.2.length = k * MIX_CHANNELS ∧
    (r.pop (k * MIX_CHANNELS)).1.read_index = r.read_index + k ∧
    (r.pop (k * MIX_CHANNELS)).1.write_index = r.write_index := by
  have hcap : k ≤ r.capacity_frames := le_trans havail (min_le_right _ _)
  have hcappos : 0 < r.capacity_frames := by omega
  have hreq : k * MIX_CHANNELS / r.channels = k := by
    rw [hch]
    show k * 2 / 2 = k
    omega
  have h1 : ¬k * MIX_CHANNELS / r.channels = 0 := by omega
  have h2 : ¬min (r.write_index - r.read_index) r.capacity_frames = 0 := by omega
  have hftr : min (k * MIX_CHANNELS / r.channels)
      (min (r.write_index - r.read_index) r.capacity_frames) = k := by omega
  have hcnt : (r.pop (k * MIX_CHANNELS)).2.1 = k := by
    rw [pop_snd, hftr]
  have hfields := pop_fields r (k * MIX_CHANNELS) h1 h2
  refine ⟨hcnt, ?_, by rw [hfields.2.1, hcnt], hfields.1⟩
  have hstlt : r.read_index % r.capacity_frames < r.capacity_frames :=
    Nat.mod_lt _ hcappos
  simp only [RingState.pop]
  rw [if_neg h1, if_neg h2, hftr]
  show (if min (r.capacity_frames - r.read_index % r.capacity_frames) k < k then
      ((r.data.drop (r.read_index % r.capacity_frames * r.channels)).take
          (min (r.capacity_frames - r.read_index % r.capacity_frames) k * r.channels)) ++
        r.data.take ((k - min (r.capacity_frames - r.read_index % r.capacity_frames) k)
          * r.channels)
    else
      (r.data.drop (r.read_index % r.capacity_frames * r.channels)).take
        (min (r.capacity_frames - r.read_index % r.capacity_frames) k * r.channels)).length
    = k * MIX_CHANNELS
  rw [hch]
  show _ = k * 2
  split_ifs with hchunk <;>
    simp only [List.length_append, List.length_take, List.length_drop, hdata] <;>
    · show _ = k * 2
      simp only [MIX_CHANNELS]
      omega

/-- Full characterization of `mix_into` for an identity-configured source
(ratio 1, phase 0, latency 0, unmuted, gain 1, pass-through delay line):
`frames + 1` frames are popped from the ring, the frames added to the
output are `prev_frame` followed by the first `frames - 1` popped frames,
the final phase is 0, and the last popped frame becomes `prev_frame`. -/
lemma mix_into_ratio_one_aux (s : Source) (out : List ℚ) (f : ℕ)
    (hmute : s.mute = false) (hgain : s.gain = 1)
    (hratio : s.resampler.ratio = 1) (hphase : s.resampler.phase = 0)
    (hlat : s.latency_frames = 0) (hcur : s.current_latency_setting = 0)
    (hdef : s.advance_deficit = 0)
    (hdlen : s.delay_line.len = 0) (hdtar : s.delay_line.target_delay = 0)
    (hdrw : s.delay_line.read_idx = s.delay_line.write_idx)
    (hdwlt : s.delay_line.write_idx < s.delay_line.capacity)
    (hdblen : s.delay_line.buffer.length = s.delay_line.capacity)
    (hch : s.ring.channels = MIX_CHANNELS)
    (havail : f + 1 ≤ min (s.ring.write_index - s.ring.read_index)
      s.ring.capacity_frames)
    (hrdata : s.ring.data.length = s.ring.capacity_frames * MIX_CHANNELS)
    (hscr : (f + 2) * MIX_CHANNELS ≤ s.scratch.length)
    (hout : 2 * f ≤ out.length) :
    (s.ring.pop ((f + 1) * MIX_CHANNELS)).2.1 = f + 1 ∧
    (s.mix_into out f).1.ring.read_index = s.ring.read_index + (f + 1) ∧
    (s.mix_into out f).2.length = out.length ∧
    (∀ j, j < f →
      (s.mix_into out f).2.getD (2 * j) 0 =
        out.getD (2 * j) 0 +
          (s.prev_frame.1 :: s.prev_frame.2 ::
            (s.ring.pop ((f + 1) * MIX_CHANNELS)).2.2).getD (2 * j) 0 ∧
      (s.mix_into out f).2.getD (2 * j + 1) 0 =
        out.getD (2 * j + 1) 0 +
          (s.prev_frame.1 :: s.prev_frame.2 ::
            (s.ring.pop ((f + 1) * MIX_CHANNELS)).2.2).getD (2 * j + 1) 0) ∧
    (s.mix_into out f).1.resampler.phase = 0 ∧
    (s.mix_into out f).1.prev_frame =
      ((s.ring.pop ((f + 1) * MIX_CHANNELS)).2.2.getD (2 * f) 0,
       (s.ring.pop ((f + 1) * MIX_CHANNELS)).2.2.getD (2 * f + 1) 0) := by
  have hpop := pop_exact s.ring (f + 1) hch (by omega) havail hrdata
  have hm : (f + 1) * MIX_CHANNELS = 2 * f + 2 := by
    show (f + 1) * 2 = 2 * f + 2
    ring
  have h1 : s.update_latency_state = s := by
    simp [Source.update_latency_state, hlat, hcur]
  have h2 : s.apply_advance_deficit = s := by
    simp [Source.apply_advance_deficit, hdef]
  have hmix : s.mix_into out f = s.resample_and_mix out f := by
    rw [Source.mix_into, if_neg (by simp [hmute]), h1, h2]
  have hclamp : clampRatio s.resampler.ratio = 1 := by
    rw [hratio]
    norm_num [clampRatio]
  have hei : expected_input f (1 : ℚ) = f + 2 := by
    rw [expected_input, mul_one, Int.ceil_natCast, Int.toNat_natCast]
  have hsub : f + 2 - 1 = f + 1 := rfl
  have hla : 1 + (f + 1) - 1 = f + 1 := by omega
  have hcond1 : ¬s.scratch.length <
      scratch_needed f (clampRatio s.resampler.ratio) := by
    rw [hclamp, scratch_needed, hei]
    omega
  have hcond2 : ¬1 + (s.ring.pop
      ((expected_input f (clampRatio s.resampler.ratio) - 1)
        * MIX_CHANNELS)).2.1 < 2 := by
    rw [hclamp, hei, hsub, hpop.1]
    omega
  have key : s.mix_into out f =
      ({ s with
          ring := (s.ring.pop ((f + 1) * MIX_CHANNELS)).1
          scratch := s.prev_frame.1 :: s.prev_frame.2 ::
            (s.ring.pop ((f + 1) * MIX_CHANNELS)).2.2 ++
              s.scratch.drop
                (MIX_CHANNELS + (s.ring.pop ((f + 1) * MIX_CHANNELS)).2.2.length)
          delay_line := (mixLoop
            (s.prev_frame.1 :: s.prev_frame.2 ::
              (s.ring.pop ((f + 1) * MIX_CHANNELS)).2.2 ++
                s.scratch.drop
                  (MIX_CHANNELS + (s.ring.pop ((f + 1) * MIX_CHANNELS)).2.2.length))
            (f + 1) 1 1 f 0 0 0 s.delay_line out).2.2.1
          resampler := { s.resampler with
            phase := (mixLoop
              (s.prev_frame.1 :: s.prev_frame.2 ::
                (s.ring.pop ((f + 1) * MIX_CHANNELS)).2.2 ++
                  s.scratch.drop
                    (MIX_CHANNELS + (s.ring.pop ((f + 1) * MIX_CHANNELS)).2.2.length))
              (f + 1) 1 1 f 0 0 0 s.delay_line out).2.1 }
          prev_frame := read_interleaved
            (s.prev_frame.1 :: s.prev_frame.2 ::
              (s.ring.pop ((f + 1) * MIX_CHANNELS)).2.2 ++
                s.scratch.drop
                  (MIX_CHANNELS + (s.ring.pop ((f + 1) * MIX_CHANNELS)).2.2.length))
            (f + 1) },
       (mixLoop
         (s.prev_frame.1 :: s.prev_frame.2 ::
           (s.ring.pop ((f + 1) * MIX_CHANNELS)).2.2 ++
             s.scratch.drop
               (MIX_CHANNELS + (s.ring.pop ((f + 1) * MIX_CHANNELS)).2.2.length))
         (f + 1) 1 1 f 0 0 0 s.delay_line out).2.2.2) := by
    rw [hmix]
    simp only [Source.resample_and_mix]
    rw [if_neg hcond1, if_neg hcond2]
    rw [hclamp, hei, hsub, hpop.1, hla, hgain, hphase]
  have hloop := mixLoop_ratio_one
    (s.prev_frame.1 :: s.prev_frame.2 ::
      (s.ring.pop ((f + 1) * MIX_CHANNELS)).2.2 ++
        s.scratch.drop
          (MIX_CHANNELS + (s.ring.pop ((f + 1) * MIX_CHANNELS)).2.2.length))
    (f + 1) f 0 s.delay_line out hdlen hdtar hdrw hdwlt hdblen (by omega)
  have hplen : (s.ring.pop ((f + 1) * MIX_CHANNELS)).2.2.length = 2 * f + 2 := by
    rw [hpop.2.1, hm]
  have hprefix_len : (s.prev_frame.1 :: s.prev_frame.2 ::
      (s.ring.pop ((f + 1) * MIX_CHANNELS)).2.2).length = 2 * f + 4 := by
    simp only [List.length_cons, hplen]
  have hscr_getD : ∀ i, i < 2 * f + 4 →
      (s.prev_frame.1 :: s.prev_frame.2 ::
        (s.ring.pop ((f + 1) * MIX_CHANNELS)).2.2 ++
          s.scratch.drop
            (MIX_CHANNELS + (s.ring.pop ((f + 1) * MIX_CHANNELS)).2.2.length)).getD
          i 0 =
      (s.prev_frame.1 :: s.prev_frame.2 ::
        (s.ring.pop ((f + 1) * MIX_CHANNELS)).2.2).getD i 0 := by
    intro i hi
    match i, hi with
    | 0, _ => rfl
    | 1, _ => rfl
    | (n + 2), hi =>
      show ((s.ring.pop ((f + 1) * MIX_CHANNELS)).2.2 ++
          s.scratch.drop
            (MIX_CHANNELS + (s.ring.pop ((f + 1) * MIX_CHANNELS)).2.2.length)).getD
          n 0 =
        (s.ring.pop ((f + 1) * MIX_CHANNELS)).2.2.getD n 0
      exact List.getD_append _ _ _ _ (by omega)
  refine ⟨hpop.1, ?_, ?_, fun j hj => ?_, ?_, ?_⟩
  · rw [key]
    exact hpop.2.2.1
  · rw [key]
    exact hloop.2.2.1
  · have h2j := hloop.2.2.2 (2 * j) (by omega)
    have h2j1 := hloop.2.2.2 (2 * j + 1) (by omega)
    rw [if_pos (by omega)] at h2j
    rw [if_pos (by omega)] at h2j1
    rw [key]
    constructor
    · show (mixLoop _ (f + 1) 1 1 f 0 0 0 s.delay_line out).2.2.2.getD (2 * j) 0 = _
      rw [h2j, hscr_getD (2 * j) (by omega)]
    · show (mixLoop _ (f + 1) 1 1 f 0 0 0 s.delay_line out).2.2.2.getD (2 * j + 1) 0 = _
      rw [h2j1, hscr_getD (2 * j + 1) (by omega)]
  · rw [key]
    exact hloop.2.1
  · have hidx1 : (s.prev_frame.1 :: s.prev_frame.2 ::
        (s.ring.pop ((f + 1) * MIX_CHANNELS)).2.2).getD ((f + 1) * MIX_CHANNELS) 0 =
        (s.ring.pop ((f + 1) * MIX_CHANNELS)).2.2.getD (2 * f) 0 := by
      rw [show (f + 1) * MIX_CHANNELS = 2 * f + 1 + 1 from hm]
      rw [List.getD_cons_succ, List.getD_cons_succ]
    have hidx2 : (s.prev_frame.1 :: s.prev_frame.2 ::
        (s.ring.pop ((f + 1) * MIX_CHANNELS)).2.2).getD
          ((f + 1) * MIX_CHANNELS + 1) 0 =
        (s.ring.pop ((f + 1) * MIX_CHANNELS)).2.2.getD (2 * f + 1) 0 := by
      rw [show (f + 1) * MIX_CHANNELS = 2 * f + 1 + 1 from hm]
      rw [List.getD_cons_succ, List.getD_cons_succ]
    rw [key]
    show read_interleaved _ (f + 1) = _
    rw [read_interleaved]
    rw [hscr_getD ((f + 1) * MIX_CHANNELS) (by omega),
      hscr_getD ((f + 1) * MIX_CHANNELS + 1) (by omega), hidx1, hidx2]

/-- Claim C8 (amended): for a source with resampler ratio 1.0, phase 0.0,
latency 0, mute false and gain 1.0 whose ring and pass-through delay line
hold enough data, `mix_into(output, frames)` pops `frames + 1` frames
from the ring, but the frames it adds to the output are `prev_frame`
followed by the first `frames - 1` popped frames — a one-frame lag coming
from the interpolation seed, not from the delay line — and it stores the
last popped frame as the new `prev_frame`, ending again with phase 0. -/
theorem mix_into_ratio_one_spec (s : Source) (out : List ℚ) (f : ℕ)
    (hmute : s.mute = false) (hgain : s.gain = 1)
    (hratio : s.resampler.ratio = 1) (hphase : s.resampler.phase = 0)
    (hlat : s.latency_frames = 0) (hcur : s.current_latency_setting = 0)
    (hdef : s.advance_deficit = 0)
    (hdlen : s.delay_line.len = 0) (hdtar : s.delay_line.target_delay = 0)
    (hdrw : s.delay_line.read_idx = s.delay_line.write_idx)
    (hdwlt : s.delay_line.write_idx < s.delay_line.capacity)
    (hdblen : s.delay_line.buffer.length = s.delay_line.capacity)
    (hch : s.ring.channels = MIX_CHANNELS)
    (havail : f + 1 ≤ min (s.ring.write_index - s.ring.read_index)
      s.ring.capacity_frames)
    (hrdata : s.ring.data.length = s.ring.capacity_frames * MIX_CHANNELS)
    (hscr : (f + 2) * MIX_CHANNELS ≤ s.scratch.length)
    (hout : 2 * f ≤ out.length) :
    (s.ring.pop ((f + 1) * MIX_CHANNELS)).2.1 = f + 1 ∧
    (s.mix_into out f).1.ring.read_index = s.ring.read_index + (f + 1) ∧
    (s.mix_into out f).2.length = out.length ∧
    (∀ j, j < f →
      (s.mix_into out f).2.getD (2 * j) 0 =
        out.getD (2 * j) 0 +
          (s.prev_frame.1 :: s.prev_frame.2 ::
            (s.ring.pop ((f + 1) * MIX_CHANNELS)).2.2).getD (2 * j) 0 ∧
      (s.mix_into out f).2.getD (2 * j + 1) 0 =
        out.getD (2 * j + 1) 0 +
          (s.prev_frame.1 :: s.prev_frame.2 ::
            (s.ring.pop ((f + 1) * MIX_CHANNELS)).2.2).getD (2 * j + 1) 0) ∧
    (s.mix_into out f).1.resampler.phase = 0 ∧
    (s.mix_into out f).1.prev_frame =
      ((s.ring.pop ((f + 1) * MIX_CHANNELS)).2.2.getD (2 * f) 0,
       (s.ring.pop ((f + 1) * MIX_CHANNELS)).2.2.getD (2 * f + 1) 0) :=
  mix_into_ratio_one_aux s out f hmute hgain hratio hphase hlat hcur hdef
    hdlen hdtar hdrw hdwlt hdblen hch havail hrdata hscr hout

/-- Witness for the amended C8 at a concrete one-frame block. -/
theorem mix_into_ratio_one_spec_witness :
    (({ Source.new (RingState.new_local 4 2) 1 with
        ring := { RingState.new_local 4 2 with
          data := [1, 1, 2, 2, 0, 0, 0, 0],
          write_index := 2 } } : Source).ring.pop
      ((1 + 1) * MIX_CHANNELS)).2.1 = 1 + 1 :=
  (mix_into_ratio_one_spec
    ({ Source.new (RingState.new_local 4 2) 1 with
        ring := { RingState.new_local 4 2 with
          data := [1, 1, 2, 2, 0, 0, 0, 0], write_index := 2 } })
    [0, 0] 1 rfl rfl rfl rfl rfl rfl rfl rfl rfl rfl (by decide) rfl rfl
    (by decide) (by decide) (by decide) (by decide)).1

/-- Counterexample to C8 as stated: a freshly constructed source (ratio
1.0, phase 0.0, latency 0, unmuted, gain 1.0, delay-line target 0) whose
ring holds the frames `(1,1), (2,2)`, mixed for one frame into a zeroed
buffer, adds the frame `(0,0)` (the seeded `prev_frame`) — not the first
popped ring frame `(1,1)`; since the delay-line target is 0, the
one-frame discrepancy is not delay-line latency. -/
theorem mix_into_identity_counterexample :
    (({ Source.new (RingState.new_local 4 2) 1 with
        ring := { RingState.new_local 4 2 with
          data := [1, 1, 2, 2, 0, 0, 0, 0],
          write_index := 2 } } : Source).mix_into [0, 0] 1).2.getD 0 0 = 0 ∧
    (({ Source.new (RingState.new_local 4 2) 1 with
        ring := { RingState.new_local 4 2 with
          data := [1, 1, 2, 2, 0, 0, 0, 0],
          write_index := 2 } } : Source).ring.pop
      ((1 + 1) * MIX_CHANNELS)).2.2.getD 0 0 = 1 ∧
    (0 : ℚ) ≠ 1 := by
  refine ⟨?_, by decide, by norm_num⟩
  have h := mix_into_ratio_one_aux
    ({ Source.new (RingState.new_local 4 2) 1 with
        ring := { RingState.new_local 4 2 with
          data := [1, 1, 2, 2, 0, 0, 0, 0], write_index := 2 } })
    [0, 0] 1 rfl rfl rfl rfl rfl rfl rfl rfl rfl rfl (by decide) rfl rfl
    (by decide) (by decide) (by decide) (by decide)
  have h4 := (h.2.2.2.1 0 (by omega)).1
  rw [show 2 * 0 = 0 from rfl] at h4
  rw [h4]
  show (0 : ℚ) + 0 = 0
  norm_num

/-! ## Latency probe (`latency.rs`), modelled over `ℝ`

`f32` values, `sqrt` and `sin` are modelled by real numbers, so these
definitions are noncomputable and comparisons use classical
decidability. -/

section Latency

open scoped Classical

/-- `dot` (`latency.rs` lines 132-134): `zip` truncates to the shorter
argument like Rust's iterator `zip`. -/
noncomputable def dot (a b : List ℝ) : ℝ :=
  ((a.zip b).map fun p => p.1 * p.2).sum

/-- `energy` (`latency.rs` lines 136-138). -/
noncomputable def energy (buf : List ℝ) : ℝ :=
  Real.sqrt ((buf.map fun x => x * x).sum)

/-- `correlation` (`latency.rs` lines 124-130). -/
noncomputable def correlation (reference recorded : List ℝ)
    (reference_norm : ℝ) : ℝ :=
  let recorded_norm := energy recorded
  if reference_norm = 0 ∨ recorded_norm = 0 then 0
  else dot reference recorded / (reference_norm * recorded_norm)

/-- The frame loop of `write_sine` (`latency.rs` lines 113-122): one
stereo frame per iteration, phase advanced by `frequency / sample_rate`
and wrapped with `fract`.  `TAU` is `2π`. -/
noncomputable def write_sine_frames (frequency : ℝ) (sample_rate : ℕ) :
    ℕ → ℝ → List ℝ
  | 0, _ => []
  | n + 1, phase =>
    let value := Real.sin (phase * (2 * Real.pi)) * 0.5
    value :: value ::
      write_sine_frames frequency sample_rate n
        (Int.fract (phase + frequency / (sample_rate : ℝ)))

/-- `write_sine` on a buffer: `chunks_exact_mut(2)` writes
`out.length / 2` frames and leaves any trailing odd sample unchanged. -/
noncomputable def write_sine (frequency : ℝ) (sample_rate : ℕ)
    (out : List ℝ) : List ℝ :=
  write_sine_frames frequency sample_rate (out.length / 2) 0 ++
    out.drop (2 * (out.length / 2))

/-- `build_reference_sine` (`latency.rs` lines 107-111). -/
noncomputable def build_reference_sine (sample_rate : ℕ) (frequency : ℝ)
    (frames : ℕ) : List ℝ :=
  write_sine frequency sample_rate (List.replicate (frames * 2) 0)

/-- `LatencyReport` (`latency.rs` lines 7-16). -/
structure LatencyReport where
  offset_frames : ℕ
  offset_seconds : ℝ
  correlation : ℝ
  measured_at_ns : ℕ

/-- `LatencyProbe` (`latency.rs` lines 19-23). -/
structure LatencyProbe where
  sample_rate : ℕ
  default_frequency : ℝ
  reference : List ℝ

/-- `LatencyProbe::new`. -/
noncomputable def LatencyProbe.new (sample_rate : ℕ) (default_frequency : ℝ)
    (window_frames : ℕ) : LatencyProbe :=
  { sample_rate := sample_rate
    default_frequency := default_frequency
    reference := build_reference_sine sample_rate default_frequency window_frames }

/-- `LatencyProbe::single_slice_report` (`latency.rs` lines 90-104). -/
noncomputable def LatencyProbe.single_slice_report (p : LatencyProbe)
    (recorded : List ℝ) (now : ℕ) : LatencyReport :=
  let reference_norm := energy p.reference
  let recorded_norm := energy recorded
  let corr :=
    if reference_norm > 0 ∧ recorded_norm > 0 then
      dot p.reference recorded / (reference_norm * recorded_norm)
    else 0
  { offset_frames := 0
    offset_seconds := 0
    correlation := corr
    measured_at_ns := now }

/-- `LatencyProbe::measure` (`latency.rs` lines 52-88).  Rust slicing
`recorded[2*offset .. 2*offset + reference.len()]` is modelled with
`drop`/`take`; `now` models `monotonic_timestamp_ns()`. -/
noncomputable def LatencyProbe.measure (p : LatencyProbe)
    (recorded : List ℝ) (now : ℕ) : LatencyReport :=
  let recorded_frames := recorded.length / 2
  let reference_frames := p.reference.length / 2
  if recorded_frames = 0 ∨ reference_frames = 0 then
    { offset_frames := 0, offset_seconds := 0, correlation := 0,
      measured_at_ns := now }
  else
    let max_offset := recorded_frames - reference_frames
    if max_offset = 0 then p.single_slice_report recorded now
    else
      let reference_norm := energy p.reference
      let best := (List.range (max_offset + 1)).foldl
        (fun best offset =>
          let recorded_slice := (recorded.drop (offset * 2)).take p.reference.length
          let corr := correlation p.reference recorded_slice reference_norm
          if corr > best.2 then (offset, corr) else best)
        ((0 : ℕ), (0 : ℝ))
      { offset_frames := best.1
        offset_seconds := (best.1 : ℝ) / (p.sample_rate : ℝ)
        correlation := best.2
        measured_at_ns := now }

/-- The normalized cross-correlation the `measure` loop computes at a
given frame offset. -/
noncomputable def nccAt (reference recorded : List ℝ) (offset : ℕ) : ℝ :=
  correlation reference ((recorded.drop (offset * 2)).take reference.length)
    (energy reference)

/-- The loop body of `LatencyProbe::measure`'s offset search. -/
noncomputable def measureStep (ref rec : List ℝ) (best : ℕ × ℝ) (offset : ℕ) :
    ℕ × ℝ :=
  if correlation ref ((rec.drop (offset * 2)).take ref.length) (energy ref) > best.2
  then (offset, correlation ref ((rec.drop (offset * 2)).take ref.length) (energy ref))
  else best

lemma measure_fold (ref rec : List ℝ) : ∀ (L : List ℕ) (b : ℕ × ℝ),
    (L.foldl (measureStep ref rec) b).2 =
      (L.map (nccAt ref rec)).foldl max b.2 ∧
    (L.foldl (measureStep ref rec) b = b ∨
      ((L.foldl (measureStep ref rec) b).1 ∈ L ∧
        nccAt ref rec (L.foldl (measureStep ref rec) b).1 =
          (L.foldl (measureStep ref rec) b).2))
  | [], b => ⟨rfl, Or.inl rfl⟩
  | o :: L, b => by
    have hb2 : (measureStep ref rec b o).2 = max b.2 (nccAt ref rec o) := by
      rw [measureStep, nccAt]
      split_ifs with h
      · exact (max_eq_right (le_of_lt h)).symm
      · exact (max_eq_left (not_lt.mp h)).symm
    have ih := measure_fold ref rec L (measureStep ref rec b o)
    constructor
    · rw [List.foldl_cons, List.map_cons, List.foldl_cons, ih.1, hb2]
    · rw [List.foldl_cons]
      rcases ih.2 with h | h
      · rw [h, measureStep]
        split_ifs with hc
        · refine Or.inr ⟨List.mem_cons_self _ _, ?_⟩
          rw [nccAt]
        · exact Or.inl rfl
      · exact Or.inr ⟨List.mem_cons_of_mem _ h.1, h.2⟩

lemma write_sine_frames_length (f : ℝ) (sr : ℕ) :
    ∀ (n : ℕ) (phase : ℝ), (write_sine_frames f sr n phase).length = 2 * n
  | 0, _ => rfl
  | n + 1, phase => by
    rw [write_sine_frames]
    simp only [List.length_cons, write_sine_frames_length f sr n]
    ring

lemma build_reference_sine_length (sr : ℕ) (f : ℝ) (frames : ℕ) :
    (build_reference_sine sr f frames).length = frames * 2 := by
  rw [build_reference_sine, write_sine, List.length_append,
    write_sine_frames_length, List.length_drop, List.length_replicate]
  omega

/-- Claim C9 (amended): with both buffers non-empty, when
`len(recorded) > len(reference)` (in frames) `measure` searches offsets
`0 ..= max_offset`; the returned correlation equals the maximum of 0 and
the normalized cross-correlations at all offsets, and whenever that value
is strictly positive the returned offset attains it (so it maximizes the
NCC); `offset_frames ≤ max_offset`,
`offset_seconds = offset_frames / sample_rate` and the report carries the
capture timestamp.  When the frame counts are equal, `measure` returns
the single-slice report at offset 0 (whose correlation may be negative,
e.g. -1 for an inverted recording). -/
theorem latency_measure_spec :
    (∀ (p : LatencyProbe) (recorded : List ℝ) (now : ℕ),
      recorded.length / 2 ≠ 0 → p.reference.length / 2 ≠ 0 →
      recorded.length / 2 - p.reference.length / 2 ≠ 0 →
      ((p.measure recorded now).offset_frames ≤
        recorded.length / 2 - p.reference.length / 2) ∧
      (p.measure recorded now).offset_seconds =
        (((p.measure recorded now).offset_frames : ℕ) : ℝ) / (p.sample_rate : ℝ) ∧
      (p.measure recorded now).correlation =
        ((List.range (recorded.length / 2 - p.reference.length / 2 + 1)).map
          (nccAt p.reference recorded)).foldl max 0 ∧
      (0 < (p.measure recorded now).correlation →
        nccAt p.reference recorded (p.measure recorded now).offset_frames =
          (p.measure recorded now).correlation) ∧
      (p.measure recorded now).measured_at_ns = now) ∧
    (∀ (p : LatencyProbe) (recorded : List ℝ) (now : ℕ),
      recorded.length / 2 ≠ 0 → p.reference.length / 2 ≠ 0 →
      recorded.length / 2 - p.reference.length / 2 = 0 →
      p.measure recorded now = p.single_slice_report recorded now ∧
      (p.single_slice_report recorded now).offset_frames = 0 ∧
      (p.single_slice_report recorded now).offset_seconds = 0) := by
  constructor
  · intro p recorded now h1 h2 h3
    have hkey : p.measure recorded now =
        { offset_frames :=
            ((List.range (recorded.length / 2 - p.reference.length / 2 + 1)).foldl
              (measureStep p.reference recorded) ((0 : ℕ), (0 : ℝ))).1
          offset_seconds :=
            ((((List.range (recorded.length / 2 - p.reference.length / 2 + 1)).foldl
              (measureStep p.reference recorded) ((0 : ℕ), (0 : ℝ))).1 : ℕ) : ℝ) /
              (p.sample_rate : ℝ)
          correlation :=
            ((List.range (recorded.length / 2 - p.reference.length / 2 + 1)).foldl
              (measureStep p.reference recorded) ((0 : ℕ), (0 : ℝ))).2
          measured_at_ns := now } := by
      simp only [LatencyProbe.measure]
      rw [if_neg (by push_neg; exact ⟨h1, h2⟩), if_neg h3]
      rfl
    have hf := measure_fold p.reference recorded
      (List.range (recorded.length / 2 - p.reference.length / 2 + 1)) (0, 0)
    refine ⟨?_, by rw [hkey], by rw [hkey]; exact hf.1, ?_, by rw [hkey]⟩
    · rw [hkey]
      rcases hf.2 with h | h
      · rw [h]
        exact Nat.zero_le _
      · exact Nat.lt_succ_iff.mp (List.mem_range.mp h.1)
    · rw [hkey]
      intro hpos
      rcases hf.2 with h | h
      · rw [h] at hpos
        exact absurd hpos (by norm_num)
      · exact h.2
  · intro p recorded now h1 h2 h3
    refine ⟨?_, rfl, rfl⟩
    simp only [LatencyProbe.measure]
    rw [if_neg (by push_neg; exact ⟨h1, h2⟩), if_pos h3]

/-- Witness for the amended C9 at a concrete probe (sample rate 4, 1 Hz,
4-frame window) against a 5-frame all-zero recording. -/
theorem latency_measure_spec_witness :
    ((LatencyProbe.new 4 1 4).measure (List.replicate 10 0) 17).offset_seconds =
      ((((LatencyProbe.new 4 1 4).measure (List.replicate 10 0) 17).offset_frames :
        ℕ) : ℝ) / (((LatencyProbe.new 4 1 4).sample_rate : ℕ) : ℝ) ∧
    ((LatencyProbe.new 4 1 4).measure (List.replicate 10 0) 17).measured_at_ns =
      17 := by
  have hlen : (LatencyProbe.new 4 1 4).reference.length = 4 * 2 :=
    build_reference_sine_length 4 1 4
  have h := (latency_measure_spec).1 (LatencyProbe.new 4 1 4)
    (List.replicate 10 0) 17 (by simp) (by rw [hlen]; norm_num) (by simp [hlen])
  exact ⟨h.2.1, h.2.2.2.2⟩

lemma wsf_four : write_sine_frames 1 4 4 0 =
    [0, 0, 1/2, 1/2, 0, 0, -(1/2), -(1/2)] := by
  have hstep : (1 : ℝ) / ((4 : ℕ) : ℝ) = 1 / 4 := by norm_num
  have hf1 : Int.fract ((0 : ℝ) + 1 / 4) = 1 / 4 := by
    rw [zero_add]
    exact Int.fract_eq_self.mpr ⟨by norm_num, by norm_num⟩
  have hf2 : Int.fract ((1 / 4 : ℝ) + 1 / 4) = 1 / 2 := by
    rw [show (1 / 4 : ℝ) + 1 / 4 = 1 / 2 by norm_num]
    exact Int.fract_eq_self.mpr ⟨by norm_num, by norm_num⟩
  have hf3 : Int.fract ((1 / 2 : ℝ) + 1 / 4) = 3 / 4 := by
    rw [show (1 / 2 : ℝ) + 1 / 4 = 3 / 4 by norm_num]
    exact Int.fract_eq_self.mpr ⟨by norm_num, by norm_num⟩
  have hv0 : Real.sin ((0 : ℝ) * (2 * Real.pi)) * 0.5 = 0 := by
    rw [zero_mul, Real.sin_zero, zero_mul]
  have hv1 : Real.sin ((1 / 4 : ℝ) * (2 * Real.pi)) * 0.5 = 1 / 2 := by
    rw [show (1 / 4 : ℝ) * (2 * Real.pi) = Real.pi / 2 by ring, Real.sin_pi_div_two]
    norm_num
  have hv2 : Real.sin ((1 / 2 : ℝ) * (2 * Real.pi)) * 0.5 = 0 := by
    rw [show (1 / 2 : ℝ) * (2 * Real.pi) = Real.pi by ring, Real.sin_pi, zero_mul]
  have hv3 : Real.sin ((3 / 4 : ℝ) * (2 * Real.pi)) * 0.5 = -(1 / 2) := by
    rw [show (3 / 4 : ℝ) * (2 * Real.pi) = Real.pi + Real.pi / 2 by ring,
      Real.sin_add, Real.sin_pi, Real.cos_pi, Real.sin_pi_div_two,
      Real.cos_pi_div_two]
    norm_num
  show write_sine_frames 1 4 (3 + 1) 0 = _
  rw [write_sine_frames, hstep, hf1]
  show Real.sin ((0 : ℝ) * (2 * Real.pi)) * 0.5 ::
    Real.sin ((0 : ℝ) * (2 * Real.pi)) * 0.5 ::
    write_sine_frames 1 4 (2 + 1) (1 / 4) = _
  rw [write_sine_frames, hstep, hf2, hv0]
  show (0 : ℝ) :: (0 : ℝ) ::
    Real.sin ((1 / 4 : ℝ) * (2 * Real.pi)) * 0.5 ::
    Real.sin ((1 / 4 : ℝ) * (2 * Real.pi)) * 0.5 ::
    write_sine_frames 1 4 (1 + 1) (1 / 2) = _
  rw [write_sine_frames, hstep, hf3, hv1]
  show (0 : ℝ) :: (0 : ℝ) :: (1 / 2 : ℝ) :: (1 / 2 : ℝ) ::
    Real.sin ((1 / 2 : ℝ) * (2 * Real.pi)) * 0.5 ::
    Real.sin ((1 / 2 : ℝ) * (2 * Real.pi)) * 0.5 ::
    write_sine_frames 1 4 (0 + 1) (3 / 4) = _
  rw [write_sine_frames, hstep, hv2, hv3]
  show (0 : ℝ) :: (0 : ℝ) :: (1 / 2 : ℝ) :: (1 / 2 : ℝ) :: (0 : ℝ) :: (0 : ℝ) ::
    (-(1 / 2) : ℝ) :: (-(1 / 2) : ℝ) ::
    write_sine_frames 1 4 0 (Int.fract ((3 / 4 : ℝ) + 1 / 4)) = _
  rw [write_sine_frames]

lemma ref_four : (LatencyProbe.new 4 1 4).reference =
    [0, 0, 1/2, 1/2, 0, 0, -(1/2), -(1/2)] := by
  show build_reference_sine 4 1 4 = _
  rw [build_reference_sine, write_sine, List.length_replicate]
  rw [show (4 * 2) / 2 = 4 from by norm_num]
  rw [show 2 * 4 = 4 * 2 from by norm_num, List.drop_replicate]
  rw [show (4 * 2) - 4 * 2 = 0 from by norm_num]
  rw [List.replicate_zero, List.append_nil, wsf_four]

lemma energy_ref_four : energy [0, 0, 1/2, 1/2, 0, 0, -(1/2), -(1/2)] = 1 := by
  rw [energy]
  rw [show (([0, 0, 1/2, 1/2, 0, 0, -(1/2), -(1/2)] : List ℝ).map
      fun x => x * x).sum = 1 by norm_num]
  exact Real.sqrt_one

lemma energy_rec_one : energy [0, 0, -(1/2), -(1/2), 0, 0, 1/2, 1/2] = 1 := by
  rw [energy]
  rw [show (([0, 0, -(1/2), -(1/2), 0, 0, 1/2, 1/2] : List ℝ).map
      fun x => x * x).sum = 1 by norm_num]
  exact Real.sqrt_one

lemma energy_slice_one : energy [-(1/2), -(1/2), 0, 0, 1/2, 1/2, 1/2, 1/2] =
    Real.sqrt (3 / 2) := by
  rw [energy]
  rw [show (([-(1/2), -(1/2), 0, 0, 1/2, 1/2, 1/2, 1/2] : List ℝ).map
      fun x => x * x).sum = 3 / 2 by norm_num]

lemma dot_ref_rec_one :
    dot [0, 0, 1/2, 1/2, 0, 0, -(1/2), -(1/2)]
      [0, 0, -(1/2), -(1/2), 0, 0, 1/2, 1/2] = -1 := by
  rw [dot]
  norm_num

lemma dot_ref_slice_one :
    dot [0, 0, 1/2, 1/2, 0, 0, -(1/2), -(1/2)]
      [-(1/2), -(1/2), 0, 0, 1/2, 1/2, 1/2, 1/2] = -(1/2) := by
  rw [dot]
  norm_num

lemma corr_ref_rec_one :
    correlation [0, 0, 1/2, 1/2, 0, 0, -(1/2), -(1/2)]
      [0, 0, -(1/2), -(1/2), 0, 0, 1/2, 1/2]
      (energy [0, 0, 1/2, 1/2, 0, 0, -(1/2), -(1/2)]) = -1 := by
  rw [correlation, energy_ref_four, energy_rec_one]
  rw [if_neg (by norm_num), dot_ref_rec_one]
  norm_num

lemma corr_ref_slice_one :
    correlation [0, 0, 1/2, 1/2, 0, 0, -(1/2), -(1/2)]
      [-(1/2), -(1/2), 0, 0, 1/2, 1/2, 1/2, 1/2]
      (energy [0, 0, 1/2, 1/2, 0, 0, -(1/2), -(1/2)]) =
      -(1/2) / Real.sqrt (3 / 2) := by
  have hspos : (0 : ℝ) < Real.sqrt (3 / 2) := Real.sqrt_pos.mpr (by norm_num)
  rw [correlation, energy_ref_four, energy_slice_one]
  rw [if_neg (by push_neg; exact ⟨one_ne_zero, ne_of_gt hspos⟩)]
  rw [dot_ref_slice_one, one_mul]

/-- Counterexample to C9 as stated: for the reachable probe
`LatencyProbe::new(4, 1.0, 4)` (whose reference is one cycle of a sine,
`[0,0,.5,.5,0,0,-.5,-.5]`): (a) measuring the inverted reference (equal
length) returns correlation `-1`, outside the claimed `[0, 1]`; (b) on a
5-frame recording whose cross-correlations at offsets 0 and 1 are both
negative (`-1` and about `-0.41`), `measure` returns offset 0 even though
offset 1 strictly maximizes the normalized cross-correlation. -/
theorem latency_measure_counterexample :
    ((LatencyProbe.new 4 1 4).measure
      [0, 0, -(1/2), -(1/2), 0, 0, 1/2, 1/2] 17).correlation = -1 ∧
    ((-1 : ℝ) < 0) ∧
    ((LatencyProbe.new 4 1 4).measure
      [0, 0, -(1/2), -(1/2), 0, 0, 1/2, 1/2, 1/2, 1/2] 17).offset_frames = 0 ∧
    nccAt (LatencyProbe.new 4 1 4).reference
        [0, 0, -(1/2), -(1/2), 0, 0, 1/2, 1/2, 1/2, 1/2] 0 <
      nccAt (LatencyProbe.new 4 1 4).reference
        [0, 0, -(1/2), -(1/2), 0, 0, 1/2, 1/2, 1/2, 1/2] 1 := by
  have hs32 : (1/2 : ℝ) < Real.sqrt (3 / 2) := by
    have h := Real.sqrt_lt_sqrt (by norm_num : (0:ℝ) ≤ 1/4) (by norm_num : (1/4:ℝ) < 3/2)
    rwa [show (1/4 : ℝ) = (1/2)^2 by norm_num, Real.sqrt_sq (by norm_num)] at h
  have hspos : (0 : ℝ) < Real.sqrt (3 / 2) := lt_trans (by norm_num) hs32
  have hslice0 : (([0, 0, -(1/2), -(1/2), 0, 0, 1/2, 1/2, 1/2, 1/2] : List ℝ).drop
      (0 * 2)).take ([0, 0, 1/2, 1/2, 0, 0, -(1/2), -(1/2)] : List ℝ).length =
      [0, 0, -(1/2), -(1/2), 0, 0, 1/2, 1/2] := rfl
  have hslice1 : (([0, 0, -(1/2), -(1/2), 0, 0, 1/2, 1/2, 1/2, 1/2] : List ℝ).drop
      (1 * 2)).take ([0, 0, 1/2, 1/2, 0, 0, -(1/2), -(1/2)] : List ℝ).length =
      [-(1/2), -(1/2), 0, 0, 1/2, 1/2, 1/2, 1/2] := rfl
  refine ⟨?_, by norm_num, ?_, ?_⟩
  · simp only [LatencyProbe.measure, ref_four]
    rw [if_neg (by simp), if_pos (by simp)]
    simp only [LatencyProbe.single_slice_report, ref_four]
    rw [if_pos ⟨by rw [energy_ref_four]; norm_num, by rw [energy_rec_one]; norm_num⟩]
    rw [dot_ref_rec_one, energy_ref_four, energy_rec_one]
    norm_num
  · have hs0 : measureStep [0, 0, 1/2, 1/2, 0, 0, -(1/2), -(1/2)]
        [0, 0, -(1/2), -(1/2), 0, 0, 1/2, 1/2, 1/2, 1/2]
        ((0 : ℕ), (0 : ℝ)) 0 = ((0 : ℕ), (0 : ℝ)) := by
      rw [measureStep, hslice0, corr_ref_rec_one]
      rw [if_neg (by norm_num)]
    have hs1 : measureStep [0, 0, 1/2, 1/2, 0, 0, -(1/2), -(1/2)]
        [0, 0, -(1/2), -(1/2), 0, 0, 1/2, 1/2, 1/2, 1/2]
        ((0 : ℕ), (0 : ℝ)) 1 = ((0 : ℕ), (0 : ℝ)) := by
      rw [measureStep, hslice1, corr_ref_slice_one]
      rw [if_neg (by
        simp only [not_lt]
        apply div_nonpos_of_nonpos_of_nonneg (by norm_num) (le_of_lt hspos))]
    simp only [LatencyProbe.measure, ref_four]
    rw [if_neg (by simp), if_neg (by simp)]
    rw [show ([0, 0, -(1/2), -(1/2), 0, 0, 1/2, 1/2, 1/2, 1/2] : List ℝ).length / 2 -
        ([0, 0, 1/2, 1/2, 0, 0, -(1/2), -(1/2)] : List ℝ).length / 2 + 1 = 2 from
        by simp]
    show (([0, 1] : List ℕ).foldl (measureStep
        [0, 0, 1/2, 1/2, 0, 0, -(1/2), -(1/2)]
        [0, 0, -(1/2), -(1/2), 0, 0, 1/2, 1/2, 1/2, 1/2]) ((0 : ℕ), (0 : ℝ))).1 = 0
    rw [List.foldl_cons, hs0, List.foldl_cons, hs1, List.foldl_nil]
  · rw [nccAt, nccAt, ref_four, hslice0, hslice1, corr_ref_rec_one,
      corr_ref_slice_one]
    rw [neg_div, show (-1 : ℝ) = -(1 : ℝ) from rfl, neg_lt_neg_iff,
      div_lt_one hspos]
    exact hs32

end Latency

end Fauxcrophone
